import Mathlib

/-!
Verification of the rust-sudoku-solver core against its specification.

The Rust data structures are shallowly embedded: the cell/group reference
graph of `grid.rs` is modelled as an arena (spec section 9): a total map from
row-major cell index `i = 9*x + y` to `CellValue`, plus the 27 `do_update`
flags of the 9 rows, 9 columns and 9 sections.  Interior mutability becomes
explicit state passing; `panic!`/`unwrap` failures and fuel exhaustion of the
unbounded `loop`s become `Option.none`.  `Vec<u8>` possibility vectors are
`List Nat`; the program keeps them sorted and duplicate-free (they start as
`[1..9]` and are only ever filtered), so `binary_search` + `remove` is
modelled as `List.erase`.
-/

set_option maxRecDepth 10000

namespace SudokuSolver


/-- grid.rs `CellValue`: a cell is `Fixed(digit)` or `Unknown(possibilities)`. -/
inductive CellValue where
  | Fixed (d : Nat)
  | Unknown (ps : List Nat)
deriving DecidableEq, Repr

open CellValue

/-- grid.rs `SectionType` / solver.rs `LineType`: Row, Column, or Section (box). -/
inductive LineType where
  | Row
  | Column
  | Section
deriving DecidableEq, Repr

/-- Arena model of grid.rs `Grid`: 81 cells (row-major; indices `< 81` are the
real cells) and the `do_update` flag of each of the 27 `Section`s. -/
structure Grid where
  cells : Nat → CellValue
  rowDirty : Nat → Bool
  colDirty : Nat → Bool
  sectDirty : Nat → Bool

/-- Row of cell index `i` (`Cell.x`). -/
def cellRow (i : Nat) : Nat := i / 9

/-- Column of cell index `i` (`Cell.y`). -/
def cellCol (i : Nat) : Nat := i % 9

/-- Section (box) of cell index `i`: `(x / 3) * 3 + y / 3` as in `Grid::new`. -/
def cellSect (i : Nat) : Nat := (i / 27) * 3 + (i % 9) / 3

/-- The nine cell indices of a line, in the order `Grid::new` pushes them. -/
def lineCells : LineType → Nat → List Nat
  | .Row, r => (List.range 9).map (fun c => 9 * r + c)
  | .Column, c => (List.range 9).map (fun r => 9 * r + c)
  | .Section, s => (List.range 9).map (fun k =>
      9 * ((s / 3) * 3 + k / 3) + ((s % 3) * 3 + k % 3))

/-- grid.rs `Grid::new`: every cell `Unknown([1..9])`, every flag clear. -/
def initialGrid : Grid :=
  { cells := fun _ => Unknown [1, 2, 3, 4, 5, 6, 7, 8, 9]
    rowDirty := fun _ => false
    colDirty := fun _ => false
    sectDirty := fun _ => false }

/-- grid.rs `Cell::mark_updates`: set the `do_update` flag of the cell's row,
column and section. -/
def markUpdates (g : Grid) (i : Nat) : Grid :=
  { g with
    rowDirty := Function.update g.rowDirty (cellRow i) true
    colDirty := Function.update g.colDirty (cellCol i) true
    sectDirty := Function.update g.sectDirty (cellSect i) true }

/-- grid.rs `Cell::set_value_exact`: replace the value, then `mark_updates`. -/
def setValueExact (g : Grid) (i : Nat) (v : CellValue) : Grid :=
  markUpdates { g with cells := Function.update g.cells i v } i

/-- The body of grid.rs `Cell::process_possibilities` for one cell of the line:
an `Unknown` cell has the digit removed from its possibilities (`binary_search`
+ `remove` on the sorted vector = `List.erase`) and receives the resulting
value through `set_value`, which for an `Unknown` value is `set_value_exact`;
a `Fixed` cell is left alone. -/
def ppStep (digit : Nat) (g : Grid) (i : Nat) : Grid :=
  match g.cells i with
  | Unknown ps => setValueExact g i (Unknown (ps.erase digit))
  | Fixed _ => g

/-- grid.rs `Cell::process_possibilities`: remove the digit from every
`Unknown` cell of the line, in order. -/
def processPossibilities (g : Grid) (line : List Nat) (digit : Nat) : Grid :=
  line.foldl (ppStep digit) g

/-- grid.rs `Cell::set`: fix the cell's value, then remove the digit from the
possibilities of the cells of its row, column and section (in that order). -/
def set (g : Grid) (i : Nat) (digit : Nat) : Grid :=
  let g1 : Grid := { g with cells := Function.update g.cells i (Fixed digit) }
  let g2 := processPossibilities g1 (lineCells .Row (cellRow i)) digit
  let g3 := processPossibilities g2 (lineCells .Column (cellCol i)) digit
  processPossibilities g3 (lineCells .Section (cellSect i)) digit

/-- grid.rs `Cell::set_value`: a `Fixed` value goes through `set` (with
propagation), an `Unknown` value through `set_value_exact`. -/
def setValue (g : Grid) (i : Nat) (v : CellValue) : Grid :=
  match v with
  | Fixed d => set g i d
  | Unknown _ => setValueExact g i v

/-- grid.rs `Cell::get_value_possibilities`. -/
def getValuePossibilities (g : Grid) (i : Nat) : Option (List Nat) :=
  match g.cells i with
  | Fixed _ => none
  | Unknown ps => some ps

/-- Whether a cell value is `Unknown`. -/
def isUnknown : CellValue → Bool
  | Unknown _ => true
  | Fixed _ => false

/-- Number of `Unknown` cells of the grid. -/
def countUnknown (g : Grid) : Nat :=
  ((List.range 81).filter (fun i => isUnknown (g.cells i))).length

/-- Candidate lists of a reachable grid are duplicate-free (they start as
`[1..9]` and are only ever erased from or filtered). -/
def WF (g : Grid) : Prop :=
  ∀ i ps, g.cells i = Unknown ps → ps.Nodup

/-- Two grids agree on all 81 cells and all 27 dirty flags. -/
def gridEqOn (g1 g2 : Grid) : Prop :=
  (∀ i < 81, g1.cells i = g2.cells i) ∧
    (∀ k < 9, g1.rowDirty k = g2.rowDirty k ∧ g1.colDirty k = g2.colDirty k ∧
      g1.sectDirty k = g2.sectDirty k)

instance : DecidablePred (fun i => isUnknown (Grid.cells (initialGrid) i)) := by
  intro i; exact inferInstance

instance (g1 g2 : Grid) : Decidable (gridEqOn g1 g2) := by
  unfold gridEqOn; exact inferInstance

/-- solver.rs `Uniqueness`. -/
inductive Uniqueness where
  | Unique
  | NotUnique
deriving DecidableEq, Repr

/-- solver.rs `SolveStatus`. -/
inductive SolveStatus where
  | Complete (u : Option Uniqueness)
  | Unfinished
  | Invalid
deriving DecidableEq, Repr

/-- solver.rs `SolveStatus::increment`, merging a branch result into the
accumulator; the `panic!` on an `Invalid` accumulator is `none`. -/
def statusIncrement : SolveStatus → SolveStatus → Option SolveStatus
  | .Complete uo, additional =>
    match uo with
    | none => some (.Complete none)
    | some .NotUnique => some (.Complete (some .NotUnique))
    | some .Unique =>
      match additional with
      | .Complete _ => some (.Complete (some .NotUnique))
      | .Unfinished => some (.Complete (some .Unique))
      | .Invalid => some (.Complete (some .Unique))
  | .Unfinished, additional =>
    match additional with
    | .Invalid => some .Unfinished
    | _ => some additional
  | .Invalid, _ => none

/-- solver.rs `SolveController`: the six technique toggles. -/
structure SolveController where
  determineUniqueness : Bool
  searchSingles : Bool
  searchHiddenSingles : Bool
  findPossibilityGroups : Bool
  searchUsefulConstraint : Bool
  makeGuesses : Bool
deriving DecidableEq, Repr

/-- The all-enabled controller built by solver.rs `solve_grid`. -/
def fullController : SolveController :=
  { determineUniqueness := true, searchSingles := true, searchHiddenSingles := true
    findPossibilityGroups := true, searchUsefulConstraint := true, makeGuesses := true }

/-- solver.rs `SolveStatistics`. -/
structure SolveStatistics where
  singles : Nat
  hiddenSingles : Nat
  possibilityGroups : Nat
  usefulConstraints : Nat
  guesses : Nat
deriving DecidableEq, Repr

/-- solver.rs `SolveStatistics::new`. -/
def stats0 : SolveStatistics := ⟨0, 0, 0, 0, 0⟩

/-- solver.rs `SolveAction`. -/
inductive SolveAction where
  | Single
  | HiddenSingle
  | PossibilityGroup
  | UsefulConstraints
  | Guess

/-- solver.rs `SolveStatistics::increment`. -/
def statsIncrement (s : SolveStatistics) : SolveAction → SolveStatistics
  | .Single => { s with singles := s.singles + 1 }
  | .HiddenSingle => { s with hiddenSingles := s.hiddenSingles + 1 }
  | .PossibilityGroup => { s with possibilityGroups := s.possibilityGroups + 1 }
  | .UsefulConstraints => { s with usefulConstraints := s.usefulConstraints + 1 }
  | .Guess => { s with guesses := s.guesses + 1 }

/-- Rust `usize::MAX`, the initial `smallest_size`. -/
def usizeMax : Nat := 2 ^ 64 - 1

/-- The scan of solver.rs `find_smallest_cell`, with the `break 'outer` taken
as soon as `smallest_size <= 2` after a cell is examined. -/
def findSmallestAux (g : Grid) : List Nat → Option Nat → Nat → Option Nat
  | [], best, _ => best
  | i :: rest, best, size =>
    let (best, size) :=
      match g.cells i with
      | Unknown ps =>
        if ps.length < size ∧ 0 < ps.length then (some i, ps.length) else (best, size)
      | Fixed _ => (best, size)
    if size ≤ 2 then best else findSmallestAux g rest best size

/-- solver.rs `find_smallest_cell`: first cell (row-major) with the fewest
possibilities among the nonempty `Unknown` cells. -/
def findSmallestCell (g : Grid) : Option Nat :=
  findSmallestAux g (List.range 81) none usizeMax

/-- One cell of the solver.rs `search_single_possibility` loop. -/
def singleStep (p : Grid × Bool) (i : Nat) : Grid × Bool :=
  match getValuePossibilities p.1 i with
  | some ps =>
    if ps.length == 1 then (setValue p.1 i (Fixed (ps.headD 0)), true) else p
  | none => p

/-- solver.rs `search_single_possibility`: fix every cell of the line whose
possibility list has exactly one member (via `set_value`, i.e. `set`). -/
def searchSinglePossibility (g : Grid) (line : List Nat) : Grid × Bool :=
  line.foldl singleStep (g, false)

/-- solver.rs `search_hidden_single`'s `Count`. -/
inductive Count where
  | None
  | One (i : Nat)
  | Many
deriving DecidableEq, Repr

/-- solver.rs `Count::increment`. -/
def countIncrement : Count → Nat → Count
  | .None, i => .One i
  | .One _, _ => .Many
  | .Many, _ => .Many

/-- One `Unknown` cell's contribution to the `counts` array: for each digit
`1..10` contained in its possibilities, increment that digit's count. -/
def countsAdd (counts : List Count) (ps : List Nat) (i : Nat) : List Count :=
  (List.range 9).map (fun k =>
    if ps.contains (k + 1) then countIncrement (counts.getD k .Many) i
    else counts.getD k .Many)

/-- One cell of the counting loop of solver.rs `search_hidden_single`. -/
def hiddenCountStep (g : Grid) (counts : List Count) (i : Nat) : List Count :=
  match g.cells i with
  | Unknown ps => countsAdd counts ps i
  | Fixed _ => counts

/-- The first loop of solver.rs `search_hidden_single`: count, over the
original line state, the `Unknown` cells carrying each digit. -/
def hiddenCounts (g : Grid) (line : List Nat) : List Count :=
  line.foldl (hiddenCountStep g) (List.replicate 9 .None)

/-- One digit of the setting loop of solver.rs `search_hidden_single`. -/
def hiddenSetStep (counts : List Count) (p : Grid × Bool) (k : Nat) : Grid × Bool :=
  match counts.getD k .Many with
  | .One i => (set p.1 i (k + 1), true)
  | _ => p

/-- solver.rs `search_hidden_single`: fix every digit that occurs in exactly
one `Unknown` cell of the line. -/
def searchHiddenSingle (g : Grid) (line : List Nat) : Grid × Bool :=
  let counts := hiddenCounts g line
  (List.range 9).foldl (hiddenSetStep counts) (g, false)

/-- solver.rs `FauxCell` (its `HashSet` of possibilities kept as the list it
was built from; the algorithm only uses membership and cardinality). -/
structure FauxCell where
  index : Nat
  possibilities : List Nat
  inGroup : Bool
deriving Inhabited, DecidableEq, Repr

/-- solver.rs `FauxLine::num_in_group`. -/
def numInGroup (fl : List FauxCell) : Nat := (fl.filter (fun c => c.inGroup)).length

/-- solver.rs `FauxLine::num_out_group`. -/
def numOutGroup (fl : List FauxCell) : Nat := fl.length - numInGroup fl

/-- Step 1 of `bisect_possibility_groups`: position (within the faux line) of
the first out-group cell of strictly smallest possibility count. -/
def smallestOutAux : List FauxCell → Nat → Option Nat → Nat → Option Nat
  | [], _, best, _ => best
  | c :: rest, pos, best, size =>
    if c.inGroup = false ∧ c.possibilities.length < size then
      smallestOutAux rest (pos + 1) (some pos) c.possibilities.length
    else smallestOutAux rest (pos + 1) best size

/-- Position of the out-group cell chosen by step 1. -/
def smallestOutPos (fl : List FauxCell) : Option Nat :=
  smallestOutAux fl 0 none usizeMax

/-- The grow loop of `bisect_possibility_groups` (steps 1-5): absorb the
smallest out-group cell, add its size to `count`, remove its possibilities
from the remaining out-group cells (`FauxCell::remove`), and stop when the
in-group size equals `count` or no out-group cell remains.  Each round moves
one cell into the group, so `fl.length + 1` fuel always suffices. -/
def bisectLoop : Nat → List FauxCell → Nat → List FauxCell
  | 0, fl, _ => fl
  | fuel + 1, fl, count =>
    if numOutGroup fl == 0 then fl
    else
      match smallestOutPos fl with
      | none => fl
      | some pos =>
        let c := fl.getD pos default
        let fl := fl.set pos { c with inGroup := true }
        let count := count + c.possibilities.length
        let fl := fl.map (fun x =>
          if x.inGroup then x
          else { x with possibilities :=
            x.possibilities.filter (fun d => !(c.possibilities.contains d)) })
        if numInGroup fl == count then fl else bisectLoop fuel fl count

/-- One position of the setup loop of `bisect_possibility_groups`. -/
def bisectSetupStep (g : Grid) (line : List Nat) (cellsOfInterest : List Nat)
    (fl : List FauxCell) (i : Nat) : List FauxCell :=
  if cellsOfInterest.contains i then
    match g.cells (line.getD i 0) with
    | Unknown ps => fl ++ [{ index := i, possibilities := ps, inGroup := false }]
    | Fixed _ => fl
  else fl

/-- The setup loop of `bisect_possibility_groups`: one faux cell per
`Unknown` cell of the line whose position is in `cells_of_interest`. -/
def bisectSetup (g : Grid) (line : List Nat) (cellsOfInterest : List Nat) : List FauxCell :=
  (List.range 9).foldl (bisectSetupStep g line cellsOfInterest) []

/-- The collected possibilities of the in-group (`inG = true`) or out-group
(`inG = false`) faux cells; only membership in it is ever used, so the
`HashSet` union is kept as a concatenation. -/
def groupPossibilities (fl : List FauxCell) (inG : Bool) : List Nat :=
  (fl.filter (fun c => c.inGroup == inG)).foldl (fun acc c => acc ++ c.possibilities) []

/-- The application loop of `bisect_possibility_groups`: each faux cell's real
cell loses the possibilities claimed by the opposite group (`binary_search` +
`remove` per claimed digit); a cell left with one possibility becomes `Fixed`
of its last element (`Vec::pop`) through `set_value`.  A `Fixed` real cell is
the source's `panic!`. -/
def bisectApply (g : Grid) (line : List Nat) (fl : List FauxCell)
    (inPoss outPoss : List Nat) : Option (Grid × Bool) :=
  fl.foldl (fun acc c =>
    match acc with
    | none => none
    | some (g, mc) =>
      let realIdx := line.getD c.index 0
      match g.cells realIdx with
      | Fixed _ => none
      | Unknown ps =>
        let toRemove := if c.inGroup then outPoss else inPoss
        let newPs := ps.filter (fun d => !(toRemove.contains d))
        if newPs.length < ps.length then
          let newValue :=
            if newPs.length == 1 then Fixed (newPs.getLastD 0) else Unknown newPs
          some (setValue g realIdx newValue, true)
        else some (g, mc)) (some (g, false))

/-- The positions (enumeration indices over the faux line, exactly as the
source pushes `index` from `faux_line.0.iter().enumerate()`) of the in-group
or out-group cells, for the recursive calls. -/
def groupPositions (fl : List FauxCell) (inG : Bool) : List Nat :=
  fl.enum.filterMap (fun p => if p.2.inGroup == inG then some p.1 else none)

/-- solver.rs `bisect_possibility_groups`.  The recursion into the two sides
of a split always receives strictly fewer cells of interest, so the fuel of
`identify_and_process_possibility_groups` below is never exhausted. -/
def bisect : Nat → Grid → List Nat → List Nat → Option (Grid × Bool)
  | 0, _, _, _ => none
  | fuel + 1, g, line, cellsOfInterest =>
    let fl := bisectSetup g line cellsOfInterest
    if numOutGroup fl ≤ 2 then some (g, false)
    else
      let fl := bisectLoop (fl.length + 1) fl 0
      if numOutGroup fl > 0 then
        let inPoss := groupPossibilities fl true
        let outPoss := groupPossibilities fl false
        match bisectApply g line fl inPoss outPoss with
        | none => none
        | some (g, mc) =>
          match bisect fuel g line (groupPositions fl true) with
          | none => none
          | some (g2, _) =>
            match bisect fuel g2 line (groupPositions fl false) with
            | none => none
            | some (g3, _) => some (g3, mc)
      else some (g, false)

/-- solver.rs `identify_and_process_possibility_groups`. -/
def identifyAndProcessPossibilityGroups (g : Grid) (line : List Nat) : Option (Grid × Bool) :=
  bisect 10 g line [0, 1, 2, 3, 4, 5, 6, 7, 8]

/-- solver.rs `PossibilityLines`. -/
inductive PossibilityLines where
  | Unique (i : Nat)
  | Invalid
  | None
deriving DecidableEq, Repr

/-- solver.rs `PossibilityLines::is_invalid`. -/
def plIsInvalid : PossibilityLines → Bool
  | .Invalid => true
  | _ => false

/-- solver.rs `process_possibility_line`. -/
def processPossibilityLine (pl : PossibilityLines) (lineIndex : Nat) : PossibilityLines :=
  match pl with
  | .None => .Unique lineIndex
  | .Invalid => pl
  | .Unique x => if x == lineIndex then pl else .Invalid

/-- The per-possibility cell scan of solver.rs `search_useful_constraint`:
a `Fixed` match processes the cell's three lines and breaks; an `Unknown`
carrier processes them and continues; the loop also breaks as soon as all
three trackers are invalid. -/
def constraintScan (g : Grid) (p : Nat) :
    List Nat → PossibilityLines × PossibilityLines × PossibilityLines →
    PossibilityLines × PossibilityLines × PossibilityLines
  | [], st => st
  | i :: rest, (rows, cols, sects) =>
    match g.cells i with
    | Fixed x =>
      if p == x then
        (processPossibilityLine rows (cellRow i), processPossibilityLine cols (cellCol i),
          processPossibilityLine sects (cellSect i))
      else
        if plIsInvalid rows && plIsInvalid cols && plIsInvalid sects then (rows, cols, sects)
        else constraintScan g p rest (rows, cols, sects)
    | Unknown digits =>
      let st :=
        if digits.contains p then
          (processPossibilityLine rows (cellRow i), processPossibilityLine cols (cellCol i),
            processPossibilityLine sects (cellSect i))
        else (rows, cols, sects)
      if plIsInvalid st.1 && plIsInvalid st.2.1 && plIsInvalid st.2.2 then st
      else constraintScan g p rest st

/-- One cell of the solver.rs `remove_possibilities_line` loop. -/
def removeLineStep (digitToRemove : Nat) (initialType : LineType) (initialIndex : Nat)
    (p : Grid × Bool) (i : Nat) : Grid × Bool :=
  match p.1.cells i with
  | Unknown ps =>
    let parentIndex :=
      match initialType with
      | .Row => cellRow i
      | .Column => cellCol i
      | .Section => cellSect i
    if parentIndex == initialIndex then p
    else if ps.contains digitToRemove then
      let newPs := ps.erase digitToRemove
      let newValue := if newPs.length == 1 then Fixed (newPs.headD 0) else Unknown newPs
      (setValue p.1 i newValue, true)
    else p
  | Fixed _ => p

/-- solver.rs `remove_possibilities_line`: remove the digit from every
`Unknown` cell of the target line except the cells whose `initial_line_type`
line is `initial_line_index`; a cell left with one possibility becomes `Fixed`
of its first element, applied through `set_value`. -/
def removePossibilitiesLine (g : Grid) (lt : LineType) (lidx : Nat) (digitToRemove : Nat)
    (initialType : LineType) (initialIndex : Nat) : Grid × Bool :=
  (lineCells lt lidx).foldl (removeLineStep digitToRemove initialType initialIndex) (g, false)

/-- The initial tracker triple for a line kind (`check_row`, `check_column`,
`check_section`). -/
def constraintInit : LineType → PossibilityLines × PossibilityLines × PossibilityLines
  | .Row => (.Invalid, .Invalid, .None)
  | .Column => (.Invalid, .Invalid, .None)
  | .Section => (.None, .None, .Invalid)

/-- Applying one tracker after the scan: a `Unique(index)` tracker removes
the possibility from that line of kind `tlt`, or-ing `made_change`. -/
def applyTracker (tlt : LineType) (pl : PossibilityLines) (poss : Nat) (lt : LineType)
    (lidx : Nat) (p : Grid × Bool) : Grid × Bool :=
  match pl with
  | .Unique idx =>
    let r := removePossibilitiesLine p.1 tlt idx poss lt lidx
    (r.1, p.2 || r.2)
  | _ => p

/-- One possibility of the solver.rs `search_useful_constraint` loop: scan the
line's cells, then apply the row, column and section trackers in order. -/
def constraintPossStep (lt : LineType) (lidx : Nat) (p : Grid × Bool) (poss : Nat) :
    Grid × Bool :=
  let scanned := constraintScan p.1 poss (lineCells lt lidx) (constraintInit lt)
  applyTracker .Section scanned.2.2 poss lt lidx
    (applyTracker .Column scanned.2.1 poss lt lidx
      (applyTracker .Row scanned.1 poss lt lidx p))

/-- solver.rs `search_useful_constraint` on the line `(lt, lidx)`.  Note the
source's `for possibility in 0..9` examines the digits 0 through 8 only. -/
def searchUsefulConstraintFn (g : Grid) (lt : LineType) (lidx : Nat) : Grid × Bool :=
  (List.range 9).foldl (constraintPossStep lt lidx) (g, false)

/-- The `do_update` flag of a line. -/
def lineDirty (g : Grid) : LineType → Nat → Bool
  | .Row, i => g.rowDirty i
  | .Column, i => g.colDirty i
  | .Section, i => g.sectDirty i

/-- Clear the `do_update` flag of a line (start of `solve_line`). -/
def clearLineDirty (g : Grid) : LineType → Nat → Grid
  | .Row, i => { g with rowDirty := Function.update g.rowDirty i false }
  | .Column, i => { g with colDirty := Function.update g.colDirty i false }
  | .Section, i => { g with sectDirty := Function.update g.sectDirty i false }

/-- solver.rs `solve_line`: clear the line's flag, then run each technique
enabled by the controller, in order, incrementing its statistic when it
reports a change. -/
def solveLine (g : Grid) (lt : LineType) (lidx : Nat) (c : SolveController)
    (stats : SolveStatistics) : Option (Grid × SolveStatistics) :=
  let line := lineCells lt lidx
  let g := clearLineDirty g lt lidx
  let (g, stats) :=
    if c.searchSingles then
      let r := searchSinglePossibility g line
      (r.1, if r.2 then statsIncrement stats .Single else stats)
    else (g, stats)
  let (g, stats) :=
    if c.searchHiddenSingles then
      let r := searchHiddenSingle g line
      (r.1, if r.2 then statsIncrement stats .HiddenSingle else stats)
    else (g, stats)
  match (if c.findPossibilityGroups then identifyAndProcessPossibilityGroups g line
         else some (g, false)) with
  | none => none
  | some (g, changed) =>
    let stats := if changed then statsIncrement stats .PossibilityGroup else stats
    let (g, stats) :=
      if c.searchUsefulConstraint then
        let r := searchUsefulConstraintFn g lt lidx
        (r.1, if r.2 then statsIncrement stats .UsefulConstraints else stats)
      else (g, stats)
    some (g, stats)

/-- One step of a scan loop pass of `solve_grid_no_guess`: run `solve_line`
on the line if its flag is set (checked against the current state). -/
def passLineStep (c : SolveController) (lt : LineType)
    (acc : Option (Grid × SolveStatistics × Bool)) (idx : Nat) :
    Option (Grid × SolveStatistics × Bool) :=
  match acc with
  | none => none
  | some (g, stats, ran) =>
    if lineDirty g lt idx then
      match solveLine g lt idx c stats with
      | none => none
      | some (g, stats) => some (g, stats, true)
    else some (g, stats, ran)

/-- One iteration of the `solve_grid_no_guess` loop body before the
completion check: rows 0-8, then columns 0-8, then sections 0-8. -/
def runPass (g : Grid) (c : SolveController) (stats : SolveStatistics) :
    Option (Grid × SolveStatistics × Bool) :=
  (List.range 9).foldl (passLineStep c .Section)
    ((List.range 9).foldl (passLineStep c .Column)
      ((List.range 9).foldl (passLineStep c .Row) (some (g, stats, false))))

/-- Result of the completion check scan. -/
inductive ScanResult where
  | InvalidFound
  | CompleteFound
  | ContinueLoop
deriving DecidableEq, Repr

/-- The completion check of `solve_grid_no_guess`: scanning row-major, an
`Unknown` cell with no possibilities returns `Invalid` immediately, any
`Unknown` cell clears `appears_complete`. -/
def completionScan (g : Grid) : List Nat → Bool → ScanResult
  | [], appearsComplete => if appearsComplete then .CompleteFound else .ContinueLoop
  | i :: rest, appearsComplete =>
    match g.cells i with
    | Unknown ps =>
      if ps.length == 0 then .InvalidFound else completionScan g rest false
    | Fixed _ => completionScan g rest appearsComplete

/-- solver.rs `solve_grid_no_guess`: repeat passes until a pass runs nothing
(`Unfinished`), an empty-possibility `Unknown` cell appears (`Invalid`) or
every cell is `Fixed` (`Complete(Some(Unique))`).  The unbounded `loop` gets
explicit fuel; running out is `none`. -/
def solveGridNoGuess : Nat → SolveController → Grid → SolveStatistics →
    Option (Grid × SolveStatus × SolveStatistics)
  | 0, _, _, _ => none
  | fuel + 1, c, g, stats =>
    match runPass g c stats with
    | none => none
    | some (g, stats, ran) =>
      if ran then
        match completionScan g (List.range 81) true with
        | .InvalidFound => some (g, .Invalid, stats)
        | .CompleteFound => some (g, .Complete (some .Unique), stats)
        | .ContinueLoop => solveGridNoGuess fuel c g stats
      else some (g, .Unfinished, stats)

/-- The branch loop of solver.rs `solve_grid_guess` over the guess cell's
possibilities, with its `break`/`continue` structure and the stored
`grid_solution`.  The recursive call into
`solve_grid_with_solve_controller` is abstracted as `solver` so that the
recursion stays structural (on the possibility list here, on fuel in the
solver). -/
def guessLoop (solver : Grid → SolveStatistics → Option (Grid × SolveStatus × SolveStatistics))
    (c : SolveController) (g : Grid) (cellIdx : Nat) :
    List Nat → SolveStatus → Option Grid → SolveStatistics →
    Option (SolveStatus × Option Grid × SolveStatistics)
  | [], currentStatus, gridSolution, stats => some (currentStatus, gridSolution, stats)
  | digit :: rest, currentStatus, gridSolution, stats =>
    let gridCopy := set g cellIdx digit
    match solver gridCopy stats with
    | none => none
    | some (gridCopy, status, stats) =>
      let gridSolution :=
        match status with
        | .Complete _ => some gridCopy
        | _ => gridSolution
      match statusIncrement currentStatus status with
      | none => none
      | some currentStatus =>
        match currentStatus with
        | .Complete u =>
          if !c.determineUniqueness then some (.Complete none, gridSolution, stats)
          else
            match u with
            | none => none
            | some .Unique => guessLoop solver c g cellIdx rest currentStatus gridSolution stats
            | some .NotUnique => some (currentStatus, gridSolution, stats)
        | .Unfinished => guessLoop solver c g cellIdx rest currentStatus gridSolution stats
        | .Invalid => none

/-- The body of solver.rs `solve_grid_guess`, abstracted over the recursive
solver: pick the smallest cell, try each of its possibilities on a clone,
merging statuses through `SolveStatus::increment`; afterwards a `Complete`
accumulator copies the stored solution back into the grid and a
still-`Unfinished` accumulator becomes `Invalid`. -/
def guessBody (solver : Grid → SolveStatistics → Option (Grid × SolveStatus × SolveStatistics))
    (c : SolveController) (g : Grid) (stats : SolveStatistics) :
    Option (Grid × SolveStatus × SolveStatistics) :=
  let stats := statsIncrement stats .Guess
  match findSmallestCell g with
  | none => some (g, .Invalid, stats)
  | some cellIdx =>
    match getValuePossibilities g cellIdx with
    | none => none
    | some possibilities =>
      match guessLoop solver c g cellIdx possibilities .Unfinished none stats with
      | none => none
      | some (currentStatus, gridSolution, stats) =>
        match currentStatus with
        | .Complete u =>
          match gridSolution with
          | none => none
          | some gs => some (gs, .Complete u, stats)
        | .Unfinished => some (g, .Invalid, stats)
        | .Invalid => some (g, .Invalid, stats)

/-- solver.rs `solve_grid_with_solve_controller`: `solve_grid_no_guess`, then
on `Unfinished` either guess (if enabled) or report
`Complete(Some(NotUnique))`. -/
def solveGridWithSolveController : Nat → SolveController → Grid → SolveStatistics →
    Option (Grid × SolveStatus × SolveStatistics)
  | 0, _, _, _ => none
  | fuel + 1, c, g, stats =>
    match solveGridNoGuess (fuel + 1) c g stats with
    | none => none
    | some (g, status, stats) =>
      match status with
      | .Unfinished =>
        if c.makeGuesses then guessBody (solveGridWithSolveController fuel c) c g stats
        else some (g, .Complete (some .NotUnique), stats)
      | _ => some (g, status, stats)

/-- solver.rs `solve_grid_guess`, its recursive calls going through
`solve_grid_with_solve_controller` at the given fuel. -/
def solveGridGuess (fuel : Nat) (c : SolveController) (g : Grid) (stats : SolveStatistics) :
    Option (Grid × SolveStatus × SolveStatistics) :=
  guessBody (solveGridWithSolveController fuel c) c g stats

/-- solver.rs `solve_grid`: the all-enabled controller and fresh statistics. -/
def solveGrid (fuel : Nat) (g : Grid) : Option (Grid × SolveStatus × SolveStatistics) :=
  solveGridWithSolveController fuel fullController g stats0

/-- solver.rs `evaluate_grid_with_solve_controller`: solve a clone, returning
status and statistics only. -/
def evaluateGridWithSolveController (fuel : Nat) (g : Grid) (c : SolveController) :
    Option (SolveStatus × SolveStatistics) :=
  (solveGridWithSolveController fuel c g stats0).map (fun r => (r.2.1, r.2.2))

/-!  Basic lemmas about the grid mutation primitives. -/

/-- Value `v` is not an `Unknown` carrying digit `d`. -/
def noDigit (d : Nat) (v : CellValue) : Prop :=
  ∀ ps, v = Unknown ps → d ∉ ps

/-- Every `Unknown` value of `v` survives in `v'` as an `Unknown` with a
subset of the possibilities. -/
def valueShrunk (v v' : CellValue) : Prop :=
  ∀ ps, v = Unknown ps → ∃ ps', v' = Unknown ps' ∧ ps' ⊆ ps

/-- The write of `Fixed(digit)` into the cell at the start of `Cell::set`. -/
def updFixed (g : Grid) (i d : Nat) : Grid :=
  { g with cells := Function.update g.cells i (Fixed d) }

/-- Cell `j` belongs to the row, column or box of cell `i`. -/
def sharesGroup (i j : Nat) : Prop :=
  cellRow i = cellRow j ∨ cellCol i = cellCol j ∨ cellSect i = cellSect j

instance (i j : Nat) : Decidable (sharesGroup i j) := by
  unfold sharesGroup; exact inferInstance

/-- A grid whose cell (0,1) is left with a single candidate by `set((0,0), 4)`. -/
def c8Grid : Grid :=
  { cells := fun i =>
      if i = 0 then Unknown [4, 6] else if i = 1 then Unknown [4, 5] else Fixed 1
    rowDirty := fun _ => false
    colDirty := fun _ => false
    sectDirty := fun _ => false }

/-- The 27 cell indices of the three lines of cell `i` (with repetitions). -/
def linesOf (i : Nat) : List Nat :=
  lineCells .Row (cellRow i) ++ lineCells .Column (cellCol i) ++ lineCells .Section (cellSect i)

/-- A grid on which `set((0,0), 1)` removes no candidate from any other cell:
the only `Unknown` peer, cell (0,1), does not carry digit 1. -/
def c7Grid : Grid :=
  { cells := fun i =>
      if i = 0 then Unknown [1, 2] else if i = 1 then Unknown [2, 3] else Fixed 9
    rowDirty := fun _ => false
    colDirty := fun _ => false
    sectDirty := fun _ => false }

/-!  Claim C5: the branch-outcome accumulator of the guessing search. -/

/-- A grid with three cells confined to two candidates: every guess branch is
`Invalid`, so the accumulator stays `Unfinished`. -/
def c5Grid : Grid :=
  { cells := fun i =>
      if i = 0 then Unknown [1, 2] else if i = 1 then Unknown [1, 2]
      else if i = 2 then Unknown [1, 2] else Fixed 9
    rowDirty := fun _ => false
    colDirty := fun _ => false
    sectDirty := fun _ => false }

/-- A concrete grid with every cell `Fixed`. -/
def allFixedGrid : Grid :=
  { cells := fun _ => Fixed 1
    rowDirty := fun _ => false
    colDirty := fun _ => false
    sectDirty := fun _ => false }

/-!  Claim C9: the multi-threaded coordinator's receive loop
(bin/generator.rs `run_multi_threaded`). -/

/-- A worker's successful payload: grid, statistics and hint count. -/
abbrev WorkerResult := Grid × SolveStatistics × Int

/-- One message on the channel: the optional result and the attempt count. -/
abbrev WorkerMessage := Option WorkerResult × Int

/-- One iteration of the coordinator's receive loop: always add the worker's
attempts; a `Some` result overwrites `result_to_return`. -/
def coordinatorStep (acc : Option WorkerResult × Int) (msg : WorkerMessage) :
    Option WorkerResult × Int :=
  let attemptCount := acc.2 + msg.2
  match msg.1 with
  | some r => (some r, attemptCount)
  | none => (acc.1, attemptCount)

/-- The coordinator's receive loop over the messages in arrival order,
starting from no result and zero attempts. -/
def runMultiThreadedLoop (msgs : List WorkerMessage) : Option WorkerResult × Int :=
  msgs.foldl coordinatorStep (none, 0)

/-!  Claim C6: the pointing/claiming technique and digit 9. -/

/-- A grid whose section 0 carries digit 9 only in its row-0 cells, with cell
(0,3) outside the section still holding candidate 9: the pointing/claiming
rule calls for eliminating 9 from (0,3). -/
def c6Grid : Grid :=
  { cells := fun i =>
      if i = 0 ∨ i = 1 ∨ i = 2 then Unknown [9]
      else if i = 3 then Unknown [3, 9]
      else if i = 9 ∨ i = 10 ∨ i = 11 ∨ i = 18 ∨ i = 19 ∨ i = 20 then Unknown [1, 2]
      else Fixed 1
    rowDirty := fun _ => false
    colDirty := fun _ => false
    sectDirty := fun _ => false }

/-- The same configuration with digit 8 in place of digit 9. -/
def c6GridB : Grid :=
  { cells := fun i =>
      if i = 0 ∨ i = 1 ∨ i = 2 then Unknown [8]
      else if i = 3 then Unknown [3, 8]
      else if i = 9 ∨ i = 10 ∨ i = 11 ∨ i = 18 ∨ i = 19 ∨ i = 20 then Unknown [1, 2]
      else Fixed 1
    rowDirty := fun _ => false
    colDirty := fun _ => false
    sectDirty := fun _ => false }

/-!  Claims C4 and C3: termination statuses and idempotence of the
`solve_grid_no_guess` scan loop. -/

/-- All 27 `do_update` flags are clear. -/
def allClean (g : Grid) : Prop :=
  ∀ k < 9, g.rowDirty k = false ∧ g.colDirty k = false ∧ g.sectDirty k = false

instance (g : Grid) : Decidable (allClean g) := by
  unfold allClean; exact inferInstance

/-- A grid one naked single away from completion, with its row flag dirty. -/
def c4Grid : Grid :=
  { cells := fun i => if i = 0 then Unknown [5] else Fixed 1
    rowDirty := fun i => i == 0
    colDirty := fun _ => false
    sectDirty := fun _ => false }

/-- The grid produced by running the scan loop on `c4Grid`. -/
def c4After : Grid :=
  { cells := Function.update c4Grid.cells 0 (Fixed 5)
    rowDirty := Function.update c4Grid.rowDirty 0 false
    colDirty := c4Grid.colDirty
    sectDirty := c4Grid.sectDirty }

/-- A grid with a zero-candidate Unknown cell and its row flag dirty. -/
def c4InvalidGrid : Grid :=
  { cells := fun i => if i = 0 then Unknown [] else Fixed 1
    rowDirty := fun i => i == 0
    colDirty := fun _ => false
    sectDirty := fun _ => false }

/-- The grid produced by running the scan loop on `c4InvalidGrid`. -/
def c4InvalidAfter : Grid :=
  { cells := c4InvalidGrid.cells
    rowDirty := Function.update c4InvalidGrid.rowDirty 0 false
    colDirty := c4InvalidGrid.colDirty
    sectDirty := c4InvalidGrid.sectDirty }

/-!  An all-`Fixed` grid is inert under every technique: this yields the
(amended) idempotence properties of claim C3. -/

/-- Every in-range cell of the grid is `Fixed`. -/
def allFixed (g : Grid) : Prop := ∀ i < 81, isUnknown (g.cells i) = false

instance (g : Grid) : Decidable (allFixed g) := by
  unfold allFixed; exact inferInstance

/-- A tracker only ever holds `Unique` indices below 9. -/
def plBounded (pl : PossibilityLines) : Prop :=
  ∀ idx, pl = .Unique idx → idx < 9

/-- A grid whose only dirty flag is column 0: the naked single at cell 36 and
the hidden single it uncovers at cell 0 complete the grid in one pass, but the
marks they leave on row 0 survive into the returned state. -/
def c3Grid : Grid :=
  { cells := fun i =>
      if i = 0 then Unknown [5, 7]
      else if i = 36 then Unknown [5]
      else Fixed 1
    rowDirty := fun _ => false
    colDirty := fun i => i == 0
    sectDirty := fun _ => false }

/-!  Claim C1: the generator invariant (generator.rs `generate_grid`).
First: the solver never turns a `Fixed` cell back into `Unknown`. -/

/-- Every cell `Fixed` in `g` is still `Fixed` in `g'`. -/
def fixedMono (g g' : Grid) : Prop :=
  ∀ j, isUnknown (g.cells j) = false → isUnknown (g'.cells j) = false

/-!  The embedding of generator.rs.  The generator in this snapshot predates
the `SolveController` plumbing of solver.rs: its `solve_grid_no_guess` call
runs every technique, modelled as `solveGridNoGuess` with `fullController`
(its statistics are local and discarded), and its `SolveStatus::Complete` has
no payload, so `map_to_generate_status` sends every `Complete` to
`UniqueSolution`.  The `ChaCha8Rng` is an oracle: a stream of naturals read
one draw at a time; `iter().choose` and `shuffle` consume draws to pick an
index / a permutation, and the theorems below hold for every stream. -/

/-- The random-number oracle: an arbitrary stream and a cursor into it. -/
structure Rng where
  stream : Nat → Nat
  pos : Nat

/-- One draw below `bound`, advancing the cursor. -/
def draw (r : Rng) (bound : Nat) : Nat × Rng :=
  (r.stream r.pos % bound, { r with pos := r.pos + 1 })

/-- Remove the element at an index (the cell `choose`/`shuffle` picked). -/
def extractAt : List Nat → Nat → Option (Nat × List Nat)
  | [], _ => none
  | x :: xs, 0 => some (x, xs)
  | x :: xs, k + 1 =>
    match extractAt xs k with
    | some (y, ys) => some (y, x :: ys)
    | none => none

/-- `rand`'s `shuffle`, modelled as oracle-driven selection sampling: each
round draws an index into the remainder and moves that element out front. -/
def shuffleList : Nat → List Nat → Rng → List Nat × Rng
  | 0, l, rng => (l, rng)
  | _ + 1, [], rng => ([], rng)
  | fuel + 1, l, rng =>
    let (k, rng1) := draw rng l.length
    match extractAt l k with
    | some (y, ys) =>
      let (zs, rng2) := shuffleList fuel ys rng1
      (y :: zs, rng2)
    | none => (l, rng1)

/-- `SliceRandom::shuffle` on a list. -/
def shuffle (l : List Nat) (rng : Rng) : List Nat × Rng :=
  shuffleList l.length l rng

/-- generator.rs `GenerateStatus`. -/
inductive GenerateStatus where
  | UniqueSolution
  | Unfinished
  | NoSolution
  | NotUniqueSolution
deriving DecidableEq, Repr

/-- generator.rs `GenerateStatus::increment`; the two `panic!` arms (an
`Unfinished` incoming status) are `none`. -/
def genIncrement : GenerateStatus → GenerateStatus → Option GenerateStatus
  | .UniqueSolution, .UniqueSolution => some .NotUniqueSolution
  | .UniqueSolution, .NoSolution => some .UniqueSolution
  | .UniqueSolution, .Unfinished => none
  | .UniqueSolution, .NotUniqueSolution => some .NotUniqueSolution
  | .Unfinished, .UniqueSolution => some .UniqueSolution
  | .Unfinished, .NoSolution => some .Unfinished
  | .Unfinished, .Unfinished => none
  | .Unfinished, .NotUniqueSolution => some .NotUniqueSolution
  | .NotUniqueSolution, _ => some .NotUniqueSolution
  | .NoSolution, _ => some .NoSolution

/-- generator.rs `SolveStatus::map_to_generate_status` (the snapshot's
payload-less `Complete`): every `Complete` becomes `UniqueSolution`. -/
def mapToGenerateStatus : SolveStatus → GenerateStatus
  | .Complete _ => .UniqueSolution
  | .Unfinished => .Unfinished
  | .Invalid => .NoSolution

/-- The possibility loop of generator.rs `solve_grid_guess`, abstracted over
the recursive `solve_grid` (`solve`), with its early `NotUniqueSolution`
return and the `panic!` on a `NoSolution` accumulator. -/
def genGuessLoop (solve : Grid → Option GenerateStatus) (g : Grid) (cellIdx : Nat) :
    List Nat → GenerateStatus → Option GenerateStatus
  | [], cur =>
    match cur with
    | .NotUniqueSolution => some .NotUniqueSolution
    | .Unfinished => some .NoSolution
    | .UniqueSolution => some .UniqueSolution
    | .NoSolution => none
  | d :: rest, cur =>
    let gridCopy := set g cellIdx d
    match solve gridCopy with
    | none => none
    | some st =>
      match genIncrement cur st with
      | none => none
      | some cur2 =>
        match cur2 with
        | .NotUniqueSolution => some .NotUniqueSolution
        | .UniqueSolution => genGuessLoop solve g cellIdx rest cur2
        | .NoSolution => none
        | .Unfinished => genGuessLoop solve g cellIdx rest cur2

/-- generator.rs `solve_grid_guess`. -/
def genSolveGridGuess (solve : Grid → Option GenerateStatus) (g : Grid) :
    Option GenerateStatus :=
  match findSmallestCell g with
  | none => some .NoSolution
  | some cellIdx =>
    match getValuePossibilities g cellIdx with
    | none => none
    | some ps => genGuessLoop solve g cellIdx ps .Unfinished

/-- generator.rs `solve_grid`: propagate on a clone, guess if `Unfinished`,
and `panic!` (= `none`) if the final status is still `Unfinished`.  The
recursion through `solve_grid_guess` gets explicit fuel. -/
def genSolveGrid : Nat → Grid → Option GenerateStatus
  | 0, _ => none
  | fuel + 1, g =>
    match solveGridNoGuess (fuel + 1) fullController g stats0 with
    | none => none
    | some (g1, st, _) =>
      match mapToGenerateStatus st with
      | .Unfinished =>
        match genSolveGridGuess (genSolveGrid fuel) g1 with
        | some .Unfinished => none
        | r => r
      | s => some s

/-- generator.rs `Cell::calculate_possibilities`: 1-9 minus the fixed values
of the other cells of the cell's section, row and column (in that order;
`binary_search` + `remove` on the sorted vector = `List.erase`). -/
def calculatePossibilities (g : Grid) (i : Nat) : List Nat :=
  let elim : List Nat → List Nat → List Nat := fun ps line =>
    line.foldl (fun ps j =>
      if j ≠ i then
        match g.cells j with
        | Fixed d => ps.erase d
        | Unknown _ => ps
      else ps) ps
  elim (elim (elim [1, 2, 3, 4, 5, 6, 7, 8, 9] (lineCells .Section (cellSect i)))
    (lineCells .Row (cellRow i))) (lineCells .Column (cellCol i))

/-- generator.rs `Line::recalculate_and_set_possibilities`: every `Unknown`
cell of the line gets its possibilities recalculated (through
`set_value_exact`, so the flags are marked); `Fixed` cells are skipped. -/
def recalcLine (g : Grid) (line : List Nat) : Grid :=
  line.foldl (fun g j =>
    match g.cells j with
    | Fixed _ => g
    | Unknown _ => setValueExact g j (Unknown (calculatePossibilities g j))) g

/-- generator.rs `Cell::delete_value`: blank the cell (placeholder `Unknown
[]` through `set_value_exact`), then recalculate the possibilities of its
section, row and column (in that order). -/
def deleteValue (g : Grid) (i : Nat) : Grid :=
  let g1 := setValueExact g i (Unknown [])
  let g2 := recalcLine g1 (lineCells .Section (cellSect i))
  let g3 := recalcLine g2 (lineCells .Row (cellRow i))
  recalcLine g3 (lineCells .Column (cellCol i))

/-- The empty cells collected by generator.rs `get_random_empty_cell`, in its
x-major scan order (= row-major index order). -/
def emptyCellsList (g : Grid) : List Nat :=
  (List.range 81).filter (fun i => isUnknown (g.cells i))

/-- generator.rs `Grid::get_random_empty_cell`: `iter().choose(rng)` picks a
random element of the collected list, `Err` (= `none`) when it is empty. -/
def getRandomEmptyCell (g : Grid) (rng : Rng) : Option (Nat × Rng) :=
  let ec := emptyCellsList g
  if ec.isEmpty then none
  else
    let (k, rng1) := draw rng ec.length
    some (ec.getD k 0, rng1)

/-- The `Fixed` cells collected before the removal phase, in scan order. -/
def nonEmptyCells (g : Grid) : List Nat :=
  (List.range 81).filter (fun i => !isUnknown (g.cells i))

/-- The seeding `for digit in 1..10` loop of `generate_grid`: set each digit
(except the excluded one) on a random empty cell, counting hints. -/
def seedFold (digits : List Nat) : Grid × Int × Rng → Option (Grid × Int × Rng) :=
  match digits with
  | [] => fun st => some st
  | d :: rest => fun st =>
    match getRandomEmptyCell st.1 st.2.2 with
    | none => none
    | some (c, rng1) => seedFold rest (set st.1 c d, st.2.1 + 1, rng1)

/-- The first `loop` of `generate_grid`: seed 8 of the 9 digits on a fresh
grid and solve; `UniqueSolution` returns the puzzle outright (`.inl`),
`NotUniqueSolution` breaks into the guessing loop (`.inr`), `NoSolution`
retries (with fuel), and `Unfinished` is the source's `panic!`. -/
def seedLoop (solve : Grid → Option GenerateStatus) :
    Nat → Rng → Option (Sum (Grid × Int) (Grid × Int × Rng))
  | 0, _ => none
  | sfuel + 1, rng =>
    let (e, rng1) := draw rng 9
    let excluded := 1 + e
    match seedFold ((List.range' 1 9).filter (fun d => d ≠ excluded))
        (initialGrid, 0, rng1) with
    | none => none
    | some (g, hints, rng2) =>
      match solve g with
      | none => none
      | some .UniqueSolution => some (.inl (g, hints))
      | some .Unfinished => none
      | some .NoSolution => seedLoop solve sfuel rng2
      | some .NotUniqueSolution => some (.inr (g, hints, rng2))

/-- The `for (_index, digit) in cell_possibilities` loop of the `'outer`
loop: each digit is set on a fresh clone of the grid; `UniqueSolution`
breaks `'outer` with that clone (`.inl`), `NotUniqueSolution` continues
`'outer` with it (`.inr`), `NoSolution` tries the next digit, `Unfinished`
panics, and falling off the end is the source's `panic!` (`none`). -/
def phaseATry (solve : Grid → Option GenerateStatus) (g : Grid) (cellIdx : Nat) :
    List Nat → Option (Sum Grid Grid)
  | [] => none
  | d :: rest =>
    let gridClone := set g cellIdx d
    match solve gridClone with
    | none => none
    | some .UniqueSolution => some (.inl gridClone)
    | some .Unfinished => none
    | some .NoSolution => phaseATry solve g cellIdx rest
    | some .NotUniqueSolution => some (.inr gridClone)

/-- The `'outer` loop of `generate_grid`: pick a random empty cell, shuffle
its possibilities and try them, accumulating guesses until a clone solves
uniquely. -/
def outerLoop (solve : Grid → Option GenerateStatus) :
    Nat → Grid → Int → Rng → Option (Grid × Int × Rng)
  | 0, _, _, _ => none
  | ofuel + 1, g, hints, rng =>
    match getRandomEmptyCell g rng with
    | none => none
    | some (cellIdx, rng1) =>
      match getValuePossibilities g cellIdx with
      | none => none
      | some ps =>
        let (ps2, rng2) := shuffle ps rng1
        match phaseATry solve g cellIdx ps2 with
        | none => none
        | some (.inl gc) => some (gc, hints + 1, rng2)
        | some (.inr gc) => outerLoop solve ofuel gc (hints + 1) rng2

/-- The removal loop of `generate_grid`: delete each collected cell on a
clone; a `UniqueSolution` check keeps the clone (one hint fewer), a
`NotUniqueSolution` keeps the old grid, and `NoSolution`/`Unfinished` are
the source's `panic!`s. -/
def phaseBFold (solve : Grid → Option GenerateStatus) :
    List Nat → Grid → Int → Option (Grid × Int)
  | [], g, hints => some (g, hints)
  | c :: rest, g, hints =>
    let gc := deleteValue g c
    match solve gc with
    | none => none
    | some .UniqueSolution => phaseBFold solve rest gc (hints - 1)
    | some .Unfinished => none
    | some .NoSolution => none
    | some .NotUniqueSolution => phaseBFold solve rest g hints

/-- generator.rs `generate_grid`, with fuel for its three unbounded loops
(the seeding retry loop, the `'outer` guessing loop and the recursion of
`solve_grid`). -/
def generateGrid (sfuel ofuel gfuel : Nat) (rng : Rng) : Option (Grid × Int) :=
  match seedLoop (genSolveGrid gfuel) sfuel rng with
  | none => none
  | some (.inl (g, hints)) => some (g, hints)
  | some (.inr (g, hints, rng2)) =>
    match outerLoop (genSolveGrid gfuel) ofuel g hints rng2 with
    | none => none
    | some (g2, hints2, rng3) =>
      let (cells, _) := shuffle (nonEmptyCells g2) rng3
      phaseBFold (genSolveGrid gfuel) cells g2 hints2

/-!  Theorems: the lemma layer and the claims. -/

theorem sanity_countUnknown_initial : countUnknown initialGrid = 81 := by decide

theorem sanity_set_erases_row_peer :
    (set initialGrid 0 1).cells 1 = Unknown [2, 3, 4, 5, 6, 7, 8, 9] := by decide

theorem sanity_set_erases_col_peer :
    (set initialGrid 0 1).cells 9 = Unknown [2, 3, 4, 5, 6, 7, 8, 9] := by decide

theorem sanity_set_erases_sect_peer :
    (set initialGrid 0 1).cells 10 = Unknown [2, 3, 4, 5, 6, 7, 8, 9] := by decide

theorem sanity_set_leaves_non_peer :
    (set initialGrid 0 1).cells 15 = Unknown [1, 2, 3, 4, 5, 6, 7, 8, 9] := by decide

theorem sanity_set_marks_own_row : (set initialGrid 0 1).rowDirty 0 = true := by decide

theorem sanity_set_marks_peer_row : (set initialGrid 0 1).rowDirty 5 = true := by decide

theorem valueShrunk_refl (v : CellValue) : valueShrunk v v := by
  intro ps h
  exact ⟨ps, h, fun _ hm => hm⟩

theorem valueShrunk_trans {v1 v2 v3 : CellValue} (h12 : valueShrunk v1 v2)
    (h23 : valueShrunk v2 v3) : valueShrunk v1 v3 := by
  intro ps h
  obtain ⟨ps2, h2, hs2⟩ := h12 ps h
  obtain ⟨ps3, h3, hs3⟩ := h23 ps2 h2
  exact ⟨ps3, h3, fun a ha => hs2 (hs3 ha)⟩

theorem cells_setValueExact (g : Grid) (i : Nat) (v : CellValue) :
    (setValueExact g i v).cells = Function.update g.cells i v := rfl

theorem cells_ppStep_ne (d : Nat) (g : Grid) (i j : Nat) (h : j ≠ i) :
    (ppStep d g i).cells j = g.cells j := by
  unfold ppStep
  cases hv : g.cells i with
  | Unknown ps => simp [cells_setValueExact, Function.update, h]
  | Fixed x => rfl

theorem isUnknown_ppStep (d : Nat) (g : Grid) (i j : Nat) :
    isUnknown ((ppStep d g i).cells j) = isUnknown (g.cells j) := by
  by_cases h : j = i
  · subst h
    cases hv : g.cells j with
    | Unknown ps => simp [ppStep, hv, cells_setValueExact, Function.update, isUnknown]
    | Fixed x => simp [ppStep, hv]
  · rw [cells_ppStep_ne d g i j h]

theorem ppStep_shrinks (d : Nat) (g : Grid) (i j : Nat) :
    valueShrunk (g.cells j) ((ppStep d g i).cells j) := by
  by_cases h : j = i
  · subst h
    intro qs hq
    refine ⟨qs.erase d, ?_, List.erase_subset _ _⟩
    simp [ppStep, hq, cells_setValueExact, Function.update]
  · rw [cells_ppStep_ne d g i j h]
    exact valueShrunk_refl _

theorem ppStep_preserves_noDigit (d : Nat) (g : Grid) (i j : Nat)
    (h : noDigit d (g.cells j)) : noDigit d ((ppStep d g i).cells j) := by
  intro ps hps
  by_cases hj : j = i
  · subst hj
    cases hv : g.cells j with
    | Unknown qs =>
      simp [ppStep, hv, cells_setValueExact, Function.update] at hps
      intro hmem
      rw [← hps] at hmem
      exact h qs hv (List.erase_subset _ _ hmem)
    | Fixed x =>
      simp [ppStep, hv] at hps
  · rw [cells_ppStep_ne d g i j hj] at hps
    exact h ps hps

theorem WF_ppStep (d : Nat) (g : Grid) (i : Nat) (h : WF g) : WF (ppStep d g i) := by
  intro j ps hps
  by_cases hj : j = i
  · subst hj
    cases hv : g.cells j with
    | Unknown qs =>
      simp [ppStep, hv, cells_setValueExact, Function.update] at hps
      rw [← hps]
      exact (h j qs hv).erase d
    | Fixed x =>
      simp [ppStep, hv] at hps
  · rw [cells_ppStep_ne d g i j hj] at hps
    exact h j ps hps

theorem ppStep_self_noDigit (d : Nat) (g : Grid) (i : Nat) (h : WF g) :
    noDigit d ((ppStep d g i).cells i) := by
  cases hv : g.cells i with
  | Unknown ps =>
    intro qs hq
    simp [ppStep, hv, cells_setValueExact, Function.update] at hq
    rw [← hq]
    exact (h i ps hv).not_mem_erase
  | Fixed x =>
    intro qs hq
    simp [ppStep, hv] at hq

theorem processPossibilities_nil (g : Grid) (d : Nat) :
    processPossibilities g [] d = g := rfl

theorem processPossibilities_cons (g : Grid) (i : Nat) (rest : List Nat) (d : Nat) :
    processPossibilities g (i :: rest) d = processPossibilities (ppStep d g i) rest d := rfl

theorem pp_shrinks (d : Nat) (L : List Nat) :
    ∀ (g : Grid) (j : Nat), valueShrunk (g.cells j) ((processPossibilities g L d).cells j) := by
  induction L with
  | nil => exact fun g j => valueShrunk_refl _
  | cons i rest ih =>
    intro g j
    rw [processPossibilities_cons]
    exact valueShrunk_trans (ppStep_shrinks d g i j) (ih (ppStep d g i) j)

theorem pp_preserves_noDigit (d : Nat) (L : List Nat) :
    ∀ (g : Grid) (j : Nat), noDigit d (g.cells j) →
      noDigit d ((processPossibilities g L d).cells j) := by
  induction L with
  | nil => exact fun g j h => h
  | cons i rest ih =>
    intro g j h
    rw [processPossibilities_cons]
    exact ih (ppStep d g i) j (ppStep_preserves_noDigit d g i j h)

theorem pp_WF (d : Nat) (L : List Nat) :
    ∀ g : Grid, WF g → WF (processPossibilities g L d) := by
  induction L with
  | nil => exact fun g h => h
  | cons i rest ih =>
    intro g h
    rw [processPossibilities_cons]
    exact ih (ppStep d g i) (WF_ppStep d g i h)

theorem pp_establishes_noDigit (d : Nat) (L : List Nat) :
    ∀ (g : Grid) (j : Nat), WF g → j ∈ L →
      noDigit d ((processPossibilities g L d).cells j) := by
  induction L with
  | nil => intro g j _ h; cases h
  | cons i rest ih =>
    intro g j hWF hmem
    rw [processPossibilities_cons]
    rcases List.mem_cons.1 hmem with h | h
    · subst h
      exact pp_preserves_noDigit d rest (ppStep d g j) j (ppStep_self_noDigit d g j hWF)
    · exact ih (ppStep d g i) j (WF_ppStep d g i hWF) h

theorem isUnknown_pp (d : Nat) (L : List Nat) :
    ∀ (g : Grid) (j : Nat),
      isUnknown ((processPossibilities g L d).cells j) = isUnknown (g.cells j) := by
  induction L with
  | nil => exact fun g j => rfl
  | cons i rest ih =>
    intro g j
    rw [processPossibilities_cons, ih (ppStep d g i) j, isUnknown_ppStep]

theorem set_eq (g : Grid) (i d : Nat) :
    set g i d =
      processPossibilities
        (processPossibilities
          (processPossibilities (updFixed g i d) (lineCells .Row (cellRow i)) d)
          (lineCells .Column (cellCol i)) d)
        (lineCells .Section (cellSect i)) d := rfl

theorem WF_updFixed (g : Grid) (i d : Nat) (h : WF g) : WF (updFixed g i d) := by
  intro j ps hps
  by_cases hj : j = i
  · subst hj
    simp [updFixed, Function.update] at hps
  · simp only [updFixed] at hps
    rw [Function.update_noteq hj] at hps
    exact h j ps hps

theorem cells_updFixed_ne (g : Grid) (i d j : Nat) (h : j ≠ i) :
    (updFixed g i d).cells j = g.cells j := by
  simp only [updFixed]
  exact Function.update_noteq h _ _

theorem mem_lineCells_row_self : ∀ j < 81, j ∈ lineCells .Row (cellRow j) := by decide

theorem mem_lineCells_col_self : ∀ j < 81, j ∈ lineCells .Column (cellCol j) := by decide

theorem mem_lineCells_sect_self : ∀ j < 81, j ∈ lineCells .Section (cellSect j) := by decide

/-- C2: immediately after `set(c, d)`, the digit `d` is absent from the
candidate set of every other in-range cell sharing c's row, column or box;
the absence is established by the `set` call itself. -/
theorem claim2_set_digit_absent_from_peers (g : Grid) (i j d : Nat) (hWF : WF g)
    (_hi : i < 81) (hj : j < 81) (_hne : j ≠ i) (hshare : sharesGroup i j) :
    noDigit d ((set g i d).cells j) := by
  rw [set_eq]
  have hWF1 : WF (updFixed g i d) := WF_updFixed g i d hWF
  rcases hshare with hr | hc | hs
  · have hmem : j ∈ lineCells .Row (cellRow i) := by
      rw [hr]; exact mem_lineCells_row_self j hj
    have h1 := pp_establishes_noDigit d (lineCells .Row (cellRow i)) (updFixed g i d) j hWF1 hmem
    have h2 := pp_preserves_noDigit d (lineCells .Column (cellCol i)) _ j h1
    exact pp_preserves_noDigit d (lineCells .Section (cellSect i)) _ j h2
  · have hmem : j ∈ lineCells .Column (cellCol i) := by
      rw [hc]; exact mem_lineCells_col_self j hj
    have hWF2 : WF (processPossibilities (updFixed g i d) (lineCells .Row (cellRow i)) d) :=
      pp_WF d _ _ hWF1
    have h1 := pp_establishes_noDigit d (lineCells .Column (cellCol i)) _ j hWF2 hmem
    exact pp_preserves_noDigit d (lineCells .Section (cellSect i)) _ j h1
  · have hmem : j ∈ lineCells .Section (cellSect i) := by
      rw [hs]; exact mem_lineCells_sect_self j hj
    have hWF2 : WF (processPossibilities (processPossibilities (updFixed g i d)
        (lineCells .Row (cellRow i)) d) (lineCells .Column (cellCol i)) d) :=
      pp_WF d _ _ (pp_WF d _ _ hWF1)
    exact pp_establishes_noDigit d (lineCells .Section (cellSect i)) _ j hWF2 hmem

theorem WF_initialGrid : WF initialGrid := by
  intro i ps h
  injection h with h
  rw [← h]
  decide

/-- C2 witness: a concrete instance of the theorem. -/
theorem claim2_witness : noDigit 7 ((set initialGrid 0 7).cells 5) :=
  claim2_set_digit_absent_from_peers initialGrid 0 5 7 WF_initialGrid (by decide) (by decide)
    (by decide) (Or.inl (by decide))

/-- C8: `set` never fixes any cell other than its own: every other cell that
was `Unknown` is still `Unknown` afterwards, with a subset of its former
possibilities. -/
theorem claim8_set_never_fixes_other_cells (g : Grid) (i d j : Nat) (ps : List Nat)
    (hne : j ≠ i) (hv : g.cells j = Unknown ps) :
    ∃ ps', (set g i d).cells j = Unknown ps' ∧ ps' ⊆ ps := by
  rw [set_eq]
  have h0 : (updFixed g i d).cells j = Unknown ps := by
    rw [cells_updFixed_ne g i d j hne]; exact hv
  have h1 := pp_shrinks d (lineCells .Row (cellRow i)) (updFixed g i d) j
  have h2 := pp_shrinks d (lineCells .Column (cellCol i))
    (processPossibilities (updFixed g i d) (lineCells .Row (cellRow i)) d) j
  have h3 := pp_shrinks d (lineCells .Section (cellSect i))
    (processPossibilities (processPossibilities (updFixed g i d)
      (lineCells .Row (cellRow i)) d) (lineCells .Column (cellCol i)) d) j
  exact valueShrunk_trans (valueShrunk_trans h1 h2) h3 ps h0

/-- C8 witness: removing the last other candidate leaves the peer `Unknown`
with one possibility rather than fixing it. -/
theorem claim8_witness :
    ∃ ps', (set c8Grid 0 4).cells 1 = Unknown ps' ∧ ps' ⊆ [4, 5] :=
  claim8_set_never_fixes_other_cells c8Grid 0 4 1 [4, 5] (by decide) (by decide)

/-!  Dirty-flag behaviour of `set` (claim C7). -/

theorem rowDirty_ppStep (d : Nat) (g : Grid) (i r : Nat) :
    (ppStep d g i).rowDirty r = (g.rowDirty r || (isUnknown (g.cells i) && (cellRow i == r))) := by
  cases hv : g.cells i with
  | Unknown ps =>
    simp only [ppStep, hv, setValueExact, markUpdates, isUnknown]
    by_cases h : r = cellRow i
    · subst h; simp [Function.update]
    · have : (cellRow i == r) = false := by
        simp [Nat.beq_eq_true_eq]
        omega
      simp [Function.update, h, this]
  | Fixed x => simp [ppStep, hv, isUnknown]

theorem colDirty_ppStep (d : Nat) (g : Grid) (i r : Nat) :
    (ppStep d g i).colDirty r = (g.colDirty r || (isUnknown (g.cells i) && (cellCol i == r))) := by
  cases hv : g.cells i with
  | Unknown ps =>
    simp only [ppStep, hv, setValueExact, markUpdates, isUnknown]
    by_cases h : r = cellCol i
    · subst h; simp [Function.update]
    · have : (cellCol i == r) = false := by
        simp [Nat.beq_eq_true_eq]
        omega
      simp [Function.update, h, this]
  | Fixed x => simp [ppStep, hv, isUnknown]

theorem sectDirty_ppStep (d : Nat) (g : Grid) (i r : Nat) :
    (ppStep d g i).sectDirty r = (g.sectDirty r || (isUnknown (g.cells i) && (cellSect i == r))) := by
  cases hv : g.cells i with
  | Unknown ps =>
    simp only [ppStep, hv, setValueExact, markUpdates, isUnknown]
    by_cases h : r = cellSect i
    · subst h; simp [Function.update]
    · have : (cellSect i == r) = false := by
        simp [Nat.beq_eq_true_eq]
        omega
      simp [Function.update, h, this]
  | Fixed x => simp [ppStep, hv, isUnknown]

theorem rowDirty_pp (d : Nat) (L : List Nat) :
    ∀ (g : Grid) (r : Nat),
      (processPossibilities g L d).rowDirty r =
        (g.rowDirty r || L.any (fun j => isUnknown (g.cells j) && (cellRow j == r))) := by
  induction L with
  | nil => simp [processPossibilities]
  | cons i rest ih =>
    intro g r
    rw [processPossibilities_cons, ih (ppStep d g i) r, rowDirty_ppStep]
    have hfun : (fun j => isUnknown ((ppStep d g i).cells j) && (cellRow j == r)) =
        (fun j => isUnknown (g.cells j) && (cellRow j == r)) :=
      funext (fun j => by rw [isUnknown_ppStep])
    rw [hfun, List.any_cons, Bool.or_assoc]

theorem colDirty_pp (d : Nat) (L : List Nat) :
    ∀ (g : Grid) (r : Nat),
      (processPossibilities g L d).colDirty r =
        (g.colDirty r || L.any (fun j => isUnknown (g.cells j) && (cellCol j == r))) := by
  induction L with
  | nil => simp [processPossibilities]
  | cons i rest ih =>
    intro g r
    rw [processPossibilities_cons, ih (ppStep d g i) r, colDirty_ppStep]
    have hfun : (fun j => isUnknown ((ppStep d g i).cells j) && (cellCol j == r)) =
        (fun j => isUnknown (g.cells j) && (cellCol j == r)) :=
      funext (fun j => by rw [isUnknown_ppStep])
    rw [hfun, List.any_cons, Bool.or_assoc]

theorem sectDirty_pp (d : Nat) (L : List Nat) :
    ∀ (g : Grid) (r : Nat),
      (processPossibilities g L d).sectDirty r =
        (g.sectDirty r || L.any (fun j => isUnknown (g.cells j) && (cellSect j == r))) := by
  induction L with
  | nil => simp [processPossibilities]
  | cons i rest ih =>
    intro g r
    rw [processPossibilities_cons, ih (ppStep d g i) r, sectDirty_ppStep]
    have hfun : (fun j => isUnknown ((ppStep d g i).cells j) && (cellSect j == r)) =
        (fun j => isUnknown (g.cells j) && (cellSect j == r)) :=
      funext (fun j => by rw [isUnknown_ppStep])
    rw [hfun, List.any_cons, Bool.or_assoc]

theorem isUnknown_updFixed (g : Grid) (i d j : Nat) :
    isUnknown ((updFixed g i d).cells j) = (!(j == i) && isUnknown (g.cells j)) := by
  by_cases h : j = i
  · subst h; simp [updFixed, Function.update, isUnknown]
  · rw [cells_updFixed_ne g i d j h]
    have : (j == i) = false := by simp [Nat.beq_eq_true_eq]; omega
    simp [this]

/-- C7 (amended): during `set(cell, digit)` a group's flag becomes dirty
exactly when it was dirty before or one of the three lines of the set cell
contains another `Unknown` cell belonging to that group — whether or not the
digit was actually removed from its candidates. -/
theorem claim7_amended_dirty_flags_of_set (g : Grid) (i d r : Nat) :
    (set g i d).rowDirty r =
      (g.rowDirty r ||
        (linesOf i).any (fun j => !(j == i) && isUnknown (g.cells j) && (cellRow j == r))) ∧
    (set g i d).colDirty r =
      (g.colDirty r ||
        (linesOf i).any (fun j => !(j == i) && isUnknown (g.cells j) && (cellCol j == r))) ∧
    (set g i d).sectDirty r =
      (g.sectDirty r ||
        (linesOf i).any (fun j => !(j == i) && isUnknown (g.cells j) && (cellSect j == r))) := by
  refine ⟨?_, ?_, ?_⟩
  · rw [set_eq, rowDirty_pp, rowDirty_pp, rowDirty_pp]
    have hfun2 : ∀ M : List Nat,
        M.any (fun j => isUnknown ((processPossibilities (updFixed g i d)
            (lineCells .Row (cellRow i)) d).cells j) && (cellRow j == r)) =
        M.any (fun j => !(j == i) && isUnknown (g.cells j) && (cellRow j == r)) := by
      intro M
      congr 1
      funext j
      rw [isUnknown_pp, isUnknown_updFixed, Bool.and_assoc]
    have hfun3 : ∀ M : List Nat,
        M.any (fun j => isUnknown ((processPossibilities (processPossibilities (updFixed g i d)
            (lineCells .Row (cellRow i)) d) (lineCells .Column (cellCol i)) d).cells j) &&
          (cellRow j == r)) =
        M.any (fun j => !(j == i) && isUnknown (g.cells j) && (cellRow j == r)) := by
      intro M
      congr 1
      funext j
      rw [isUnknown_pp, isUnknown_pp, isUnknown_updFixed, Bool.and_assoc]
    have hfun1 : ∀ M : List Nat,
        M.any (fun j => isUnknown ((updFixed g i d).cells j) && (cellRow j == r)) =
        M.any (fun j => !(j == i) && isUnknown (g.cells j) && (cellRow j == r)) := by
      intro M
      congr 1
      funext j
      rw [isUnknown_updFixed, Bool.and_assoc]
    rw [hfun1, hfun2, hfun3]
    have hud : (updFixed g i d).rowDirty r = g.rowDirty r := rfl
    rw [hud]
    simp only [linesOf, List.any_append, Bool.or_assoc]
  · rw [set_eq, colDirty_pp, colDirty_pp, colDirty_pp]
    have hfun2 : ∀ M : List Nat,
        M.any (fun j => isUnknown ((processPossibilities (updFixed g i d)
            (lineCells .Row (cellRow i)) d).cells j) && (cellCol j == r)) =
        M.any (fun j => !(j == i) && isUnknown (g.cells j) && (cellCol j == r)) := by
      intro M
      congr 1
      funext j
      rw [isUnknown_pp, isUnknown_updFixed, Bool.and_assoc]
    have hfun3 : ∀ M : List Nat,
        M.any (fun j => isUnknown ((processPossibilities (processPossibilities (updFixed g i d)
            (lineCells .Row (cellRow i)) d) (lineCells .Column (cellCol i)) d).cells j) &&
          (cellCol j == r)) =
        M.any (fun j => !(j == i) && isUnknown (g.cells j) && (cellCol j == r)) := by
      intro M
      congr 1
      funext j
      rw [isUnknown_pp, isUnknown_pp, isUnknown_updFixed, Bool.and_assoc]
    have hfun1 : ∀ M : List Nat,
        M.any (fun j => isUnknown ((updFixed g i d).cells j) && (cellCol j == r)) =
        M.any (fun j => !(j == i) && isUnknown (g.cells j) && (cellCol j == r)) := by
      intro M
      congr 1
      funext j
      rw [isUnknown_updFixed, Bool.and_assoc]
    rw [hfun1, hfun2, hfun3]
    have hud : (updFixed g i d).colDirty r = g.colDirty r := rfl
    rw [hud]
    simp only [linesOf, List.any_append, Bool.or_assoc]
  · rw [set_eq, sectDirty_pp, sectDirty_pp, sectDirty_pp]
    have hfun2 : ∀ M : List Nat,
        M.any (fun j => isUnknown ((processPossibilities (updFixed g i d)
            (lineCells .Row (cellRow i)) d).cells j) && (cellSect j == r)) =
        M.any (fun j => !(j == i) && isUnknown (g.cells j) && (cellSect j == r)) := by
      intro M
      congr 1
      funext j
      rw [isUnknown_pp, isUnknown_updFixed, Bool.and_assoc]
    have hfun3 : ∀ M : List Nat,
        M.any (fun j => isUnknown ((processPossibilities (processPossibilities (updFixed g i d)
            (lineCells .Row (cellRow i)) d) (lineCells .Column (cellCol i)) d).cells j) &&
          (cellSect j == r)) =
        M.any (fun j => !(j == i) && isUnknown (g.cells j) && (cellSect j == r)) := by
      intro M
      congr 1
      funext j
      rw [isUnknown_pp, isUnknown_pp, isUnknown_updFixed, Bool.and_assoc]
    have hfun1 : ∀ M : List Nat,
        M.any (fun j => isUnknown ((updFixed g i d).cells j) && (cellSect j == r)) =
        M.any (fun j => !(j == i) && isUnknown (g.cells j) && (cellSect j == r)) := by
      intro M
      congr 1
      funext j
      rw [isUnknown_updFixed, Bool.and_assoc]
    rw [hfun1, hfun2, hfun3]
    have hud : (updFixed g i d).sectDirty r = g.sectDirty r := rfl
    rw [hud]
    simp only [linesOf, List.any_append, Bool.or_assoc]

/-- C7 counterexample: `set((0,0), 1)` on `c7Grid` changes no candidate set of
any other cell, yet it newly sets the row-0 dirty flag (false before, true
after), refuting the claim that a flag is newly set only when a candidate was
actually removed. -/
theorem claim7_counterexample :
    c7Grid.rowDirty 0 = false ∧
    ((List.range 81).all
      (fun j => j == 0 || decide ((set c7Grid 0 1).cells j = c7Grid.cells j)) = true) ∧
    (set c7Grid 0 1).rowDirty 0 = true := by
  refine ⟨rfl, by decide, by decide⟩

/-- C5: the guess accumulator starts at `Unfinished` and combines branch
results as claimed: `Unfinished` plus `Complete(u)` gives `Complete(u)`;
`Complete(Unique)` plus any further `Complete` gives `Complete(NotUnique)`;
an `Invalid` branch leaves the accumulator unchanged; and when the loop over
all candidates of the guess cell ends with the accumulator still
`Unfinished`, `solve_grid_guess` reports `Invalid` (with the grid unchanged). -/
theorem claim5_guess_accumulator :
    (∀ u : Option Uniqueness,
      statusIncrement .Unfinished (.Complete u) = some (.Complete u)) ∧
    (∀ u' : Option Uniqueness,
      statusIncrement (.Complete (some .Unique)) (.Complete u') =
        some (.Complete (some .NotUnique))) ∧
    (∀ s : SolveStatus, s ≠ .Invalid → statusIncrement s .Invalid = some s) ∧
    (∀ (solver : Grid → SolveStatistics → Option (Grid × SolveStatus × SolveStatistics))
      (c : SolveController) (g : Grid) (stats : SolveStatistics)
      (cellIdx : Nat) (ps : List Nat) (sol : Option Grid) (stats' : SolveStatistics),
      findSmallestCell g = some cellIdx →
      getValuePossibilities g cellIdx = some ps →
      guessLoop solver c g cellIdx ps .Unfinished none (statsIncrement stats .Guess) =
        some (.Unfinished, sol, stats') →
      guessBody solver c g stats = some (g, .Invalid, stats')) ∧
    (∀ (fuel : Nat) (c : SolveController) (g : Grid) (stats : SolveStatistics),
      solveGridGuess fuel c g stats =
        guessBody (solveGridWithSolveController fuel c) c g stats) := by
  refine ⟨fun u => rfl, fun u' => rfl, ?_, ?_, fun fuel c g stats => rfl⟩
  · intro s hs
    cases s with
    | Complete uo =>
      cases uo with
      | none => rfl
      | some uu => cases uu <;> rfl
    | Unfinished => rfl
    | Invalid => exact absurd rfl hs
  · intro solver c g stats cellIdx ps sol stats' h1 h2 h3
    simp only [guessBody, h1, h2, h3]

/-- C5 witness: each accumulator rule at concrete statuses, and a concrete
grid whose two guess branches are both `Invalid`, producing `Invalid`. -/
theorem claim5_witness :
    statusIncrement .Unfinished (.Complete (some .Unique)) = some (.Complete (some .Unique)) ∧
    statusIncrement (.Complete (some .Unique)) (.Complete none) =
      some (.Complete (some .NotUnique)) ∧
    statusIncrement .Unfinished .Invalid = some .Unfinished ∧
    guessBody (solveGridWithSolveController 3 fullController) fullController c5Grid stats0 =
      some (c5Grid, .Invalid, ⟨2, 0, 0, 0, 1⟩) ∧
    solveGridGuess 3 fullController c5Grid stats0 =
      guessBody (solveGridWithSolveController 3 fullController) fullController c5Grid stats0 :=
  ⟨claim5_guess_accumulator.1 (some .Unique),
   claim5_guess_accumulator.2.1 none,
   claim5_guess_accumulator.2.2.1 .Unfinished (by decide),
   claim5_guess_accumulator.2.2.2.1 (solveGridWithSolveController 3 fullController)
     fullController c5Grid stats0 0 [1, 2] none ⟨2, 0, 0, 0, 1⟩ (by decide) (by decide) rfl,
   claim5_guess_accumulator.2.2.2.2 3 fullController c5Grid stats0⟩

/-!  Claim C10: zero-candidate cells and guessing. -/

theorem findSmallestAux_skip (g : Grid) :
    ∀ (L : List Nat) (best : Option Nat) (size : Nat),
      (∀ i ∈ L, ∀ ps, g.cells i = Unknown ps → ps = []) →
      findSmallestAux g L best size = best := by
  intro L
  induction L with
  | nil => intro best size _; rfl
  | cons i rest ih =>
    intro best size h
    have hi : ∀ ps, g.cells i = Unknown ps → ps = [] := h i (List.mem_cons_self i rest)
    have hrest : ∀ j ∈ rest, ∀ ps, g.cells j = Unknown ps → ps = [] :=
      fun j hj => h j (List.mem_cons_of_mem i hj)
    cases hv : g.cells i with
    | Unknown ps =>
      have hps : ps = [] := hi ps hv
      subst hps
      simp only [findSmallestAux, hv]
      have hcond : ¬(([] : List Nat).length < size ∧ 0 < ([] : List Nat).length) := by simp
      rw [if_neg hcond]
      by_cases hsz : size ≤ 2
      · rw [if_pos hsz]
      · rw [if_neg hsz]
        exact ih best size hrest
    | Fixed x =>
      simp only [findSmallestAux, hv]
      by_cases hsz : size ≤ 2
      · rw [if_pos hsz]
      · rw [if_neg hsz]
        exact ih best size hrest

theorem findSmallestAux_sound (g : Grid) :
    ∀ (L : List Nat) (best : Option Nat) (size : Nat),
      (∀ i, best = some i → ∃ ps, g.cells i = Unknown ps ∧ ps ≠ []) →
      ∀ i, findSmallestAux g L best size = some i →
        ∃ ps, g.cells i = Unknown ps ∧ ps ≠ [] := by
  intro L
  induction L with
  | nil => intro best size hbest i hres; exact hbest i hres
  | cons j rest ih =>
    intro best size hbest i hres
    cases hv : g.cells j with
    | Unknown ps =>
      simp only [findSmallestAux, hv] at hres
      by_cases hcond : ps.length < size ∧ 0 < ps.length
      · rw [if_pos hcond] at hres
        have hnew : ∀ k, some j = some k → ∃ qs, g.cells k = Unknown qs ∧ qs ≠ [] := by
          intro k hk
          injection hk with hk
          subst hk
          refine ⟨ps, hv, ?_⟩
          intro hnil
          rw [hnil] at hcond
          simp at hcond
        by_cases hsz : ps.length ≤ 2
        · rw [if_pos hsz] at hres
          exact hnew i hres
        · rw [if_neg hsz] at hres
          exact ih (some j) ps.length hnew i hres
      · rw [if_neg hcond] at hres
        by_cases hsz : size ≤ 2
        · rw [if_pos hsz] at hres
          exact hbest i hres
        · rw [if_neg hsz] at hres
          exact ih best size hbest i hres
    | Fixed x =>
      simp only [findSmallestAux, hv] at hres
      by_cases hsz : size ≤ 2
      · rw [if_pos hsz] at hres
        exact hbest i hres
      · rw [if_neg hsz] at hres
        exact ih best size hbest i hres

/-- C10: on a grid where no cell is `Unknown` with a nonempty candidate set,
`find_smallest_cell` returns no cell and `solve_grid_guess` returns `Invalid`
(leaving the grid alone and charging one guess); moreover, on any grid, a
zero-candidate `Unknown` cell is never selected as the guess cell. -/
theorem claim10_zero_candidate_cells_never_guessed (g : Grid)
    (h : ∀ i < 81, getValuePossibilities g i = none ∨ getValuePossibilities g i = some []) :
    (findSmallestCell g = none ∧
      ∀ (fuel : Nat) (c : SolveController) (stats : SolveStatistics),
        solveGridGuess fuel c g stats = some (g, .Invalid, statsIncrement stats .Guess)) ∧
    ∀ (g' : Grid) (i : Nat), findSmallestCell g' = some i →
      ∃ ps, g'.cells i = Unknown ps ∧ ps ≠ [] := by
  have hempty : ∀ i ∈ List.range 81, ∀ ps, g.cells i = Unknown ps → ps = [] := by
    intro i hi ps hps
    have hi81 : i < 81 := List.mem_range.1 hi
    rcases h i hi81 with hnone | hsome
    · rw [getValuePossibilities, hps] at hnone
      cases hnone
    · rw [getValuePossibilities, hps] at hsome
      injection hsome
  have hfind : findSmallestCell g = none :=
    findSmallestAux_skip g (List.range 81) none usizeMax hempty
  refine ⟨⟨hfind, ?_⟩, ?_⟩
  · intro fuel c stats
    simp only [solveGridGuess, guessBody, hfind]
  · intro g' i hres
    exact findSmallestAux_sound g' (List.range 81) none usizeMax
      (fun k hk => by cases hk) i hres

/-- C10 witness: the all-`Fixed` grid yields no guess cell and an `Invalid`
guess, and the selection soundness instantiated on the fresh grid. -/
theorem claim10_witness :
    findSmallestCell allFixedGrid = none ∧
    solveGridGuess 5 fullController allFixedGrid stats0 =
      some (allFixedGrid, .Invalid, statsIncrement stats0 .Guess) ∧
    (findSmallestCell initialGrid = some 0 →
      ∃ ps, initialGrid.cells 0 = Unknown ps ∧ ps ≠ []) :=
  ⟨(claim10_zero_candidate_cells_never_guessed allFixedGrid (by decide)).1.1,
   (claim10_zero_candidate_cells_never_guessed allFixedGrid (by decide)).1.2 5 fullController stats0,
   (claim10_zero_candidate_cells_never_guessed allFixedGrid (by decide)).2 initialGrid 0⟩

theorem coordinator_fold_snd :
    ∀ (msgs : List WorkerMessage) (acc : Option WorkerResult × Int),
      (msgs.foldl coordinatorStep acc).2 = acc.2 + (msgs.map Prod.snd).sum := by
  intro msgs
  induction msgs with
  | nil => intro acc; simp
  | cons m rest ih =>
    intro acc
    rw [List.foldl_cons, ih]
    have hstep : (coordinatorStep acc m).2 = acc.2 + m.2 := by
      cases hm : m.1 <;> simp [coordinatorStep, hm]
    rw [hstep]
    simp
    omega

theorem coordinator_fold_fst :
    ∀ (msgs : List WorkerMessage) (acc : Option WorkerResult × Int),
      (msgs.foldl coordinatorStep acc).1 =
        Option.or ((msgs.filterMap Prod.fst).getLast?) acc.1 := by
  intro msgs
  induction msgs with
  | nil => intro acc; rfl
  | cons m rest ih =>
    intro acc
    rw [List.foldl_cons, ih]
    cases hm : m.1 with
    | some r =>
      have hstep : (coordinatorStep acc m).1 = some r := by simp [coordinatorStep, hm]
      rw [hstep]
      have hfm : (m :: rest).filterMap Prod.fst = r :: rest.filterMap Prod.fst := by
        simp [List.filterMap_cons, hm]
      rw [hfm]
      cases hl : rest.filterMap Prod.fst with
      | nil => simp [hl]
      | cons b l =>
        rw [List.getLast?_cons_cons]
        cases hlast : (b :: l).getLast? with
        | none =>
          exact absurd (List.getLast?_eq_none_iff.1 hlast) (by simp)
        | some x => rfl
    | none =>
      have hstep : (coordinatorStep acc m).1 = acc.1 := by simp [coordinatorStep, hm]
      rw [hstep]
      have hfm : (m :: rest).filterMap Prod.fst = rest.filterMap Prod.fst := by
        simp [List.filterMap_cons, hm]
      rw [hfm]

/-- C9 (amended): the coordinator returns the sum of all workers' attempt
counts, and the puzzle of the last success in arrival order (a later success
overwrites an earlier one). -/
theorem claim9_amended_coordinator (msgs : List WorkerMessage) :
    (runMultiThreadedLoop msgs).2 = (msgs.map Prod.snd).sum ∧
    (runMultiThreadedLoop msgs).1 = (msgs.filterMap Prod.fst).getLast? := by
  constructor
  · rw [runMultiThreadedLoop, coordinator_fold_snd]
    simp
  · rw [runMultiThreadedLoop, coordinator_fold_fst]
    exact Option.or_none

/-- C9 counterexample: with two successful messages the coordinator returns
the second one, not the first (attempt counts still sum). -/
theorem claim9_counterexample :
    (runMultiThreadedLoop [(some (initialGrid, stats0, 30), 2),
        (some (initialGrid, stats0, 40), 3)]).2 = 5 ∧
    (runMultiThreadedLoop [(some (initialGrid, stats0, 30), 2),
        (some (initialGrid, stats0, 40), 3)]).1 = some (initialGrid, stats0, 40) ∧
    ¬((runMultiThreadedLoop [(some (initialGrid, stats0, 30), 2),
        (some (initialGrid, stats0, 40), 3)]).1 = some (initialGrid, stats0, 30)) := by
  refine ⟨rfl, rfl, ?_⟩
  intro h
  have h' : some (initialGrid, stats0, (40 : Int)) = some (initialGrid, stats0, (30 : Int)) := h
  injection h' with h''
  have h3 := congrArg (fun t : WorkerResult => t.2.2) h''
  simp only at h3
  omega

/-- C6 (code bug): `search_useful_constraint` iterates `for possibility in
0..9`, i.e. digits 0-8, and never the digit 9.  On `c6Grid`, where every cell
of section 0 carrying digit 9 lies in row 0, running the technique on section
0 changes nothing — candidate 9 survives in cell (0,3) — although the claim
(and the identical digit-8 configuration `c6GridB`, where the elimination
does fire and fixes cell (0,3)) requires it to be eliminated. -/
theorem claim6_pointing_constraint_skips_digit9 :
    ((lineCells .Section 0).filter (fun j =>
      match c6Grid.cells j with
      | Unknown ps => ps.contains 9
      | Fixed x => x == 9) = [0, 1, 2]) ∧
    searchUsefulConstraintFn c6Grid .Section 0 = (c6Grid, false) ∧
    c6Grid.cells 3 = Unknown [3, 9] ∧
    (searchUsefulConstraintFn c6GridB .Section 0).2 = true ∧
    (searchUsefulConstraintFn c6GridB .Section 0).1.cells 3 = Fixed 3 := by
  refine ⟨by decide, rfl, rfl, by decide, by decide⟩

theorem foldl_passLineStep_none (c : SolveController) (lt : LineType) (L : List Nat) :
    L.foldl (passLineStep c lt) none = none := by
  induction L with
  | nil => rfl
  | cons i rest ih => exact ih

theorem foldl_passLineStep_clean (c : SolveController) (lt : LineType) :
    ∀ (L : List Nat) (g : Grid) (stats : SolveStatistics) (ran : Bool),
      (∀ idx ∈ L, lineDirty g lt idx = false) →
      L.foldl (passLineStep c lt) (some (g, stats, ran)) = some (g, stats, ran) := by
  intro L
  induction L with
  | nil => intro g stats ran _; rfl
  | cons idx rest ih =>
    intro g stats ran h
    rw [List.foldl_cons]
    have hd : lineDirty g lt idx = false := h idx (List.mem_cons_self idx rest)
    have hstep : passLineStep c lt (some (g, stats, ran)) idx = some (g, stats, ran) := by
      simp [passLineStep, hd]
    rw [hstep]
    exact ih g stats ran (fun j hj => h j (List.mem_cons_of_mem idx hj))

theorem runPass_clean (g : Grid) (c : SolveController) (stats : SolveStatistics)
    (h : allClean g) : runPass g c stats = some (g, stats, false) := by
  unfold runPass
  rw [foldl_passLineStep_clean c .Row (List.range 9) g stats false
    (fun idx hidx => (h idx (List.mem_range.1 hidx)).1)]
  rw [foldl_passLineStep_clean c .Column (List.range 9) g stats false
    (fun idx hidx => (h idx (List.mem_range.1 hidx)).2.1)]
  exact foldl_passLineStep_clean c .Section (List.range 9) g stats false
    (fun idx hidx => (h idx (List.mem_range.1 hidx)).2.2)

theorem solveGridNoGuess_succ (fuel : Nat) (c : SolveController) (g : Grid)
    (stats : SolveStatistics) :
    solveGridNoGuess (fuel + 1) c g stats =
      match runPass g c stats with
      | none => none
      | some (g, stats, ran) =>
        if ran then
          match completionScan g (List.range 81) true with
          | .InvalidFound => some (g, .Invalid, stats)
          | .CompleteFound => some (g, .Complete (some .Unique), stats)
          | .ContinueLoop => solveGridNoGuess fuel c g stats
        else some (g, .Unfinished, stats) := rfl

theorem noGuess_clean (fuel : Nat) (c : SolveController) (g : Grid)
    (stats : SolveStatistics) (h : allClean g) :
    solveGridNoGuess (fuel + 1) c g stats = some (g, .Unfinished, stats) := by
  rw [solveGridNoGuess_succ, runPass_clean g c stats h]
  rfl

theorem foldl_passLineStep_false (c : SolveController) (lt : LineType) :
    ∀ (L : List Nat) (g : Grid) (stats : SolveStatistics) (ran : Bool)
      (g' : Grid) (stats' : SolveStatistics),
      L.foldl (passLineStep c lt) (some (g, stats, ran)) = some (g', stats', false) →
      ran = false ∧ g' = g ∧ stats' = stats ∧ ∀ idx ∈ L, lineDirty g lt idx = false := by
  intro L
  induction L with
  | nil =>
    intro g stats ran g' stats' h
    injection h with h
    injection h with h1 h2
    injection h2 with h2 h3
    exact ⟨h3, h1.symm, h2.symm, fun idx hidx => absurd hidx (List.not_mem_nil idx)⟩
  | cons idx rest ih =>
    intro g stats ran g' stats' h
    rw [List.foldl_cons] at h
    by_cases hd : lineDirty g lt idx
    · exfalso
      have hstep : passLineStep c lt (some (g, stats, ran)) idx =
          match solveLine g lt idx c stats with
          | none => none
          | some (g2, stats2) => some (g2, stats2, true) := by
        simp [passLineStep, hd]
      rw [hstep] at h
      cases hs : solveLine g lt idx c stats with
      | none =>
        rw [hs] at h
        rw [foldl_passLineStep_none] at h
        cases h
      | some p =>
        rw [hs] at h
        obtain ⟨hran, _, _, _⟩ := ih p.1 p.2 true g' stats' h
        cases hran
    · have hstep : passLineStep c lt (some (g, stats, ran)) idx = some (g, stats, ran) := by
        simp [passLineStep, hd]
      rw [hstep] at h
      obtain ⟨hran, hg, hstats, hrest⟩ := ih g stats ran g' stats' h
      refine ⟨hran, hg, hstats, ?_⟩
      intro j hj
      rcases List.mem_cons.1 hj with hj | hj
      · subst hj
        simpa using hd
      · exact hrest j hj

theorem runPass_false (g : Grid) (c : SolveController) (stats : SolveStatistics)
    (g' : Grid) (stats' : SolveStatistics)
    (h : runPass g c stats = some (g', stats', false)) :
    g' = g ∧ stats' = stats ∧ allClean g := by
  unfold runPass at h
  cases h2 : (List.range 9).foldl (passLineStep c .Column)
      ((List.range 9).foldl (passLineStep c .Row) (some (g, stats, false))) with
  | none =>
    rw [h2, foldl_passLineStep_none] at h
    cases h
  | some p2 =>
    rw [h2] at h
    obtain ⟨hran2, hg2, hstats2, hsect⟩ :=
      foldl_passLineStep_false c .Section (List.range 9) p2.1 p2.2.1 p2.2.2 g' stats' h
    cases h1 : (List.range 9).foldl (passLineStep c .Row) (some (g, stats, false)) with
    | none =>
      rw [h1, foldl_passLineStep_none] at h2
      cases h2
    | some p1 =>
      rw [h1] at h2
      have h2' : (List.range 9).foldl (passLineStep c .Column)
          (some (p1.1, p1.2.1, p1.2.2)) = some (p2.1, p2.2.1, false) := by
        rw [← hran2]
        exact h2
      obtain ⟨hran1, hg1, hstats1, hcol⟩ :=
        foldl_passLineStep_false c .Column (List.range 9) p1.1 p1.2.1 p1.2.2 p2.1 p2.2.1 h2'
      have h1' : (List.range 9).foldl (passLineStep c .Row)
          (some (g, stats, false)) = some (p1.1, p1.2.1, false) := by
        conv_rhs => rw [← hran1]
        exact h1
      obtain ⟨_, hg0, hstats0, hrow⟩ :=
        foldl_passLineStep_false c .Row (List.range 9) g stats false p1.1 p1.2.1 h1'
      have hgeq : g' = g := by rw [hg2, hg1, hg0]
      have hseq : stats' = stats := by rw [hstats2, hstats1, hstats0]
      refine ⟨hgeq, hseq, ?_⟩
      intro k hk
      have hkr : k ∈ List.range 9 := List.mem_range.2 hk
      refine ⟨?_, ?_, ?_⟩
      · have hx := hrow k hkr
        simpa [lineDirty] using hx
      · have hx := hcol k hkr
        rw [hg0] at hx
        simpa [lineDirty] using hx
      · have hx := hsect k hkr
        rw [hg1, hg0] at hx
        simpa [lineDirty] using hx

theorem noGuess_unfinished_clean :
    ∀ (fuel : Nat) (c : SolveController) (g : Grid) (stats : SolveStatistics)
      (g1 : Grid) (stats1 : SolveStatistics),
      solveGridNoGuess fuel c g stats = some (g1, .Unfinished, stats1) →
      allClean g1 ∧ g1 = g ∧ stats1 = stats ∨
        (∃ fuel' g' stats', fuel = fuel' + 1 ∧
          solveGridNoGuess fuel' c g' stats' = some (g1, .Unfinished, stats1)) := by
  intro fuel c g stats g1 stats1 h
  match fuel with
  | 0 => cases h
  | fuel + 1 =>
    rw [solveGridNoGuess_succ] at h
    cases hp : runPass g c stats with
    | none => rw [hp] at h; cases h
    | some p =>
      rw [hp] at h
      obtain ⟨gp, sp, ran⟩ := p
      cases ran with
      | false =>
        simp only [Bool.false_eq_true, if_false] at h
        injection h with h
        injection h with h1 h2
        injection h2 with h2 h3
        subst h1; subst h3
        obtain ⟨hg, hs, hclean⟩ := runPass_false g c stats gp sp hp
        exact Or.inl ⟨hg ▸ hclean, hg, hs⟩
      | true =>
        simp only [if_true] at h
        cases hscan : completionScan gp (List.range 81) true with
        | InvalidFound => rw [hscan] at h; cases h
        | CompleteFound => rw [hscan] at h; cases h
        | ContinueLoop =>
          rw [hscan] at h
          exact Or.inr ⟨fuel, gp, sp, rfl, h⟩

/-- An `Unfinished` result of `solve_grid_no_guess` always carries a grid
with all 27 flags clear. -/
theorem noGuess_unfinished_allClean :
    ∀ (fuel : Nat) (c : SolveController) (g : Grid) (stats : SolveStatistics)
      (g1 : Grid) (stats1 : SolveStatistics),
      solveGridNoGuess fuel c g stats = some (g1, .Unfinished, stats1) → allClean g1 := by
  intro fuel
  induction fuel with
  | zero => intro c g stats g1 stats1 h; cases h
  | succ fuel ih =>
    intro c g stats g1 stats1 h
    rcases noGuess_unfinished_clean (fuel + 1) c g stats g1 stats1 h with
      ⟨hclean, _, _⟩ | ⟨fuel', g', stats', hfe, h'⟩
    · exact hclean
    · injection hfe with hfe
      subst hfe
      exact ih c g' stats' g1 stats1 h'

theorem completionScan_complete (g : Grid) :
    ∀ (L : List Nat) (ac : Bool), completionScan g L ac = .CompleteFound →
      ac = true ∧ ∀ i ∈ L, isUnknown (g.cells i) = false := by
  intro L
  induction L with
  | nil =>
    intro ac h
    cases ac with
    | true => exact ⟨rfl, fun i hi => absurd hi (List.not_mem_nil i)⟩
    | false => cases h
  | cons i rest ih =>
    intro ac h
    cases hv : g.cells i with
    | Unknown ps =>
      simp only [completionScan, hv] at h
      by_cases hlen : ps.length == 0
      · rw [if_pos hlen] at h; cases h
      · rw [if_neg hlen] at h
        obtain ⟨hfalse, _⟩ := ih false h
        cases hfalse
    | Fixed x =>
      simp only [completionScan, hv] at h
      obtain ⟨hac, hrest⟩ := ih ac h
      refine ⟨hac, ?_⟩
      intro j hj
      rcases List.mem_cons.1 hj with hj | hj
      · subst hj; simp [hv, isUnknown]
      · exact hrest j hj

theorem completionScan_invalid (g : Grid) :
    ∀ (L : List Nat) (ac : Bool), completionScan g L ac = .InvalidFound →
      ∃ i, i ∈ L ∧ g.cells i = Unknown [] := by
  intro L
  induction L with
  | nil =>
    intro ac h
    cases ac <;> cases h
  | cons i rest ih =>
    intro ac h
    cases hv : g.cells i with
    | Unknown ps =>
      simp only [completionScan, hv] at h
      by_cases hlen : ps.length == 0
      · have hnil : ps = [] := List.length_eq_zero.1 (eq_of_beq hlen)
        exact ⟨i, List.mem_cons_self i rest, hnil ▸ hv⟩
      · rw [if_neg hlen] at h
        obtain ⟨j, hj, hjv⟩ := ih false h
        exact ⟨j, List.mem_cons_of_mem i hj, hjv⟩
    | Fixed x =>
      simp only [completionScan, hv] at h
      obtain ⟨j, hj, hjv⟩ := ih ac h
      exact ⟨j, List.mem_cons_of_mem i hj, hjv⟩

theorem noGuess_complete_allFixed :
    ∀ (fuel : Nat) (c : SolveController) (g : Grid) (stats : SolveStatistics)
      (g' : Grid) (u : Option Uniqueness) (stats' : SolveStatistics),
      solveGridNoGuess fuel c g stats = some (g', .Complete u, stats') →
      ∀ i < 81, isUnknown (g'.cells i) = false := by
  intro fuel
  induction fuel with
  | zero => intro c g stats g' u stats' h; cases h
  | succ fuel ih =>
    intro c g stats g' u stats' h
    rw [solveGridNoGuess_succ] at h
    cases hp : runPass g c stats with
    | none => rw [hp] at h; cases h
    | some p =>
      rw [hp] at h
      obtain ⟨gp, sp, ran⟩ := p
      cases ran with
      | false =>
        simp only [Bool.false_eq_true, if_false] at h
        cases h
      | true =>
        simp only [if_true] at h
        cases hscan : completionScan gp (List.range 81) true with
        | InvalidFound => rw [hscan] at h; cases h
        | CompleteFound =>
          rw [hscan] at h
          injection h with h
          injection h with h1 h2
          subst h1
          intro i hi
          exact (completionScan_complete gp (List.range 81) true hscan).2 i (List.mem_range.2 hi)
        | ContinueLoop =>
          rw [hscan] at h
          exact ih c gp sp g' u stats' h

theorem noGuess_invalid_empty_cell :
    ∀ (fuel : Nat) (c : SolveController) (g : Grid) (stats : SolveStatistics)
      (g' : Grid) (stats' : SolveStatistics),
      solveGridNoGuess fuel c g stats = some (g', .Invalid, stats') →
      ∃ i, i < 81 ∧ g'.cells i = Unknown [] := by
  intro fuel
  induction fuel with
  | zero => intro c g stats g' stats' h; cases h
  | succ fuel ih =>
    intro c g stats g' stats' h
    rw [solveGridNoGuess_succ] at h
    cases hp : runPass g c stats with
    | none => rw [hp] at h; cases h
    | some p =>
      rw [hp] at h
      obtain ⟨gp, sp, ran⟩ := p
      cases ran with
      | false =>
        simp only [Bool.false_eq_true, if_false] at h
        cases h
      | true =>
        simp only [if_true] at h
        cases hscan : completionScan gp (List.range 81) true with
        | InvalidFound =>
          rw [hscan] at h
          injection h with h
          injection h with h1 h2
          subst h1
          obtain ⟨i, hi, hv⟩ := completionScan_invalid gp (List.range 81) true hscan
          exact ⟨i, List.mem_range.1 hi, hv⟩
        | CompleteFound => rw [hscan] at h; cases h
        | ContinueLoop =>
          rw [hscan] at h
          exact ih c gp sp g' stats' h

/-- C4 counterexample: an all-`Fixed` grid with clear flags; the scan loop
finds no dirty group and returns `Unfinished`, not `Complete`, refuting
"returns Complete when all 81 cells are Fixed" (and the "exactly when some
Unknown cell remains" reading of the Unfinished case). -/
theorem claim4_counterexample :
    solveGridNoGuess 1 fullController allFixedGrid stats0 =
      some (allFixedGrid, .Unfinished, stats0) ∧
    countUnknown allFixedGrid = 0 :=
  ⟨rfl, by decide⟩

/-- C4 (amended): the scan loop returns `Unfinished` whenever no group is
dirty, whether or not Unknown cells remain (leaving grid and statistics
untouched); a `Complete` result implies every in-range cell is `Fixed`; an
`Invalid` result implies some in-range Unknown cell has no candidates; and
consequently `Complete` is never reported while a zero-candidate Unknown cell
exists. -/
theorem claim4_amended_no_guess_statuses :
    (∀ (fuel : Nat) (c : SolveController) (g : Grid) (stats : SolveStatistics),
      allClean g → solveGridNoGuess (fuel + 1) c g stats = some (g, .Unfinished, stats)) ∧
    (∀ (fuel : Nat) (c : SolveController) (g : Grid) (stats : SolveStatistics)
      (g' : Grid) (u : Option Uniqueness) (stats' : SolveStatistics),
      solveGridNoGuess fuel c g stats = some (g', .Complete u, stats') →
      ∀ i < 81, isUnknown (g'.cells i) = false) ∧
    (∀ (fuel : Nat) (c : SolveController) (g : Grid) (stats : SolveStatistics)
      (g' : Grid) (stats' : SolveStatistics),
      solveGridNoGuess fuel c g stats = some (g', .Invalid, stats') →
      ∃ i, i < 81 ∧ g'.cells i = Unknown []) ∧
    (∀ (fuel : Nat) (c : SolveController) (g : Grid) (stats : SolveStatistics)
      (g' : Grid) (u : Option Uniqueness) (stats' : SolveStatistics),
      solveGridNoGuess fuel c g stats = some (g', .Complete u, stats') →
      ¬ ∃ i, i < 81 ∧ g'.cells i = Unknown []) := by
  refine ⟨fun fuel c g stats h => noGuess_clean fuel c g stats h,
    noGuess_complete_allFixed, noGuess_invalid_empty_cell, ?_⟩
  intro fuel c g stats g' u stats' h hex
  obtain ⟨i, hi, hv⟩ := hex
  have := noGuess_complete_allFixed fuel c g stats g' u stats' h i hi
  rw [hv] at this
  cases this

/-- C4 witness: the amended theorem applied at concrete runs (a clean grid,
a completing run, an invalid run). -/
theorem claim4_witness :
    solveGridNoGuess 1 fullController allFixedGrid stats0 =
      some (allFixedGrid, .Unfinished, stats0) ∧
    isUnknown (c4After.cells 0) = false ∧
    (∃ i, i < 81 ∧ c4InvalidAfter.cells i = Unknown []) ∧
    ¬ ∃ i, i < 81 ∧ c4After.cells i = Unknown [] :=
  ⟨claim4_amended_no_guess_statuses.1 0 fullController allFixedGrid stats0 (by decide),
   claim4_amended_no_guess_statuses.2.1 1 fullController c4Grid stats0 c4After
     (some .Unique) ⟨1, 0, 0, 0, 0⟩ rfl 0 (by decide),
   claim4_amended_no_guess_statuses.2.2.1 1 fullController c4InvalidGrid stats0
     c4InvalidAfter stats0 rfl,
   claim4_amended_no_guess_statuses.2.2.2 1 fullController c4Grid stats0 c4After
     (some .Unique) ⟨1, 0, 0, 0, 0⟩ rfl⟩

theorem allFixed_of_cells_eq {g g' : Grid} (h : g'.cells = g.cells) (hg : allFixed g) :
    allFixed g' := by
  intro i hi
  rw [h]
  exact hg i hi

theorem lineCells_length (lt : LineType) (idx : Nat) : (lineCells lt idx).length = 9 := by
  cases lt <;> simp [lineCells]

theorem lineCells_lt_81_row : ∀ idx < 9, ∀ j ∈ lineCells .Row idx, j < 81 := by decide

theorem lineCells_lt_81_col : ∀ idx < 9, ∀ j ∈ lineCells .Column idx, j < 81 := by decide

theorem lineCells_lt_81_sect : ∀ idx < 9, ∀ j ∈ lineCells .Section idx, j < 81 := by decide

theorem lineCells_lt_81 (lt : LineType) (idx : Nat) (hidx : idx < 9) :
    ∀ j ∈ lineCells lt idx, j < 81 := by
  cases lt with
  | Row => exact lineCells_lt_81_row idx hidx
  | Column => exact lineCells_lt_81_col idx hidx
  | Section => exact lineCells_lt_81_sect idx hidx

theorem line_cells_fixed (g : Grid) (lt : LineType) (idx : Nat) (hidx : idx < 9)
    (hg : allFixed g) : ∀ j ∈ lineCells lt idx, isUnknown (g.cells j) = false :=
  fun j hj => hg j (lineCells_lt_81 lt idx hidx j hj)

theorem singleStep_inert (g : Grid) (b : Bool) (i : Nat)
    (h : isUnknown (g.cells i) = false) : singleStep (g, b) i = (g, b) := by
  cases hv : g.cells i with
  | Unknown ps => rw [hv] at h; cases h
  | Fixed x => simp [singleStep, getValuePossibilities, hv]

theorem searchSingle_inert (g : Grid) (L : List Nat)
    (h : ∀ j ∈ L, isUnknown (g.cells j) = false) :
    searchSinglePossibility g L = (g, false) := by
  unfold searchSinglePossibility
  induction L with
  | nil => rfl
  | cons i rest ih =>
    rw [List.foldl_cons, singleStep_inert g false i (h i (List.mem_cons_self i rest))]
    exact ih (fun j hj => h j (List.mem_cons_of_mem i hj))

theorem hiddenCounts_inert (g : Grid) (L : List Nat)
    (h : ∀ j ∈ L, isUnknown (g.cells j) = false) :
    hiddenCounts g L = List.replicate 9 .None := by
  unfold hiddenCounts
  induction L with
  | nil => rfl
  | cons i rest ih =>
    have hi := h i (List.mem_cons_self i rest)
    rw [List.foldl_cons]
    have hstep : hiddenCountStep g (List.replicate 9 .None) i = List.replicate 9 .None := by
      cases hv : g.cells i with
      | Unknown ps => rw [hv] at hi; cases hi
      | Fixed x => simp [hiddenCountStep, hv]
    rw [hstep]
    exact ih (fun j hj => h j (List.mem_cons_of_mem i hj))

theorem getD_replicate_none :
    ∀ (n k : Nat), (List.replicate n Count.None).getD k Count.Many = Count.None ∨
      (List.replicate n Count.None).getD k Count.Many = Count.Many := by
  intro n
  induction n with
  | zero => intro k; exact Or.inr rfl
  | succ n ih =>
    intro k
    cases k with
    | zero => exact Or.inl rfl
    | succ k =>
      rw [List.replicate_succ]
      exact ih k

theorem hiddenSet_inert (g : Grid) (b : Bool) (K : List Nat) :
    K.foldl (hiddenSetStep (List.replicate 9 .None)) (g, b) = (g, b) := by
  induction K with
  | nil => rfl
  | cons k rest ih =>
    rw [List.foldl_cons]
    have hstep : hiddenSetStep (List.replicate 9 .None) (g, b) k = (g, b) := by
      rcases getD_replicate_none 9 k with h | h <;>
        · unfold hiddenSetStep
          rw [h]
    rw [hstep]
    exact ih

theorem searchHiddenSingle_inert (g : Grid) (L : List Nat)
    (h : ∀ j ∈ L, isUnknown (g.cells j) = false) :
    searchHiddenSingle g L = (g, false) := by
  unfold searchHiddenSingle
  rw [hiddenCounts_inert g L h]
  exact hiddenSet_inert g false (List.range 9)

theorem bisectSetup_inert (g : Grid) (line : List Nat) (coi : List Nat)
    (h : ∀ j ∈ line, isUnknown (g.cells j) = false) (hlen : line.length = 9) :
    bisectSetup g line coi = [] := by
  unfold bisectSetup
  have hmem : ∀ i ∈ List.range 9, isUnknown (g.cells (line.getD i 0)) = false := by
    intro i hi
    refine h _ ?_
    have hi9 : i < line.length := by rw [hlen]; exact List.mem_range.1 hi
    rw [List.getD_eq_getElem line 0 hi9]
    exact List.getElem_mem hi9
  generalize List.range 9 = K at hmem
  induction K with
  | nil => rfl
  | cons i rest ih =>
    rw [List.foldl_cons]
    have hstep : bisectSetupStep g line coi [] i = [] := by
      have hv := hmem i (List.mem_cons_self i rest)
      cases hc : g.cells (line.getD i 0) with
      | Unknown ps => rw [hc] at hv; cases hv
      | Fixed x =>
        unfold bisectSetupStep
        by_cases hin : coi.contains i
        · rw [if_pos hin, hc]
        · rw [if_neg hin]
    rw [hstep]
    exact ih (fun j hj => hmem j (List.mem_cons_of_mem i hj))

theorem identifyGroups_inert (g : Grid) (line : List Nat)
    (h : ∀ j ∈ line, isUnknown (g.cells j) = false) (hlen : line.length = 9) :
    identifyAndProcessPossibilityGroups g line = some (g, false) := by
  unfold identifyAndProcessPossibilityGroups
  have hsetup := bisectSetup_inert g line [0, 1, 2, 3, 4, 5, 6, 7, 8] h hlen
  show bisect (9 + 1) g line [0, 1, 2, 3, 4, 5, 6, 7, 8] = some (g, false)
  unfold bisect
  rw [hsetup]
  rfl

theorem cellRow_lt_9 (j : Nat) (h : j < 81) : cellRow j < 9 := by
  unfold cellRow; omega

theorem cellCol_lt_9 (j : Nat) : cellCol j < 9 := by
  unfold cellCol; omega

theorem cellSect_lt_9 (j : Nat) (h : j < 81) : cellSect j < 9 := by
  unfold cellSect; omega

theorem plBounded_invalid : plBounded .Invalid := by
  intro idx h; cases h

theorem plBounded_none : plBounded .None := by
  intro idx h; cases h

theorem plBounded_process {pl : PossibilityLines} (h : plBounded pl) (k : Nat) (hk : k < 9) :
    plBounded (processPossibilityLine pl k) := by
  intro idx hidx
  cases pl with
  | None =>
    simp only [processPossibilityLine] at hidx
    injection hidx with hidx
    omega
  | Invalid =>
    simp only [processPossibilityLine] at hidx
    cases hidx
  | Unique x =>
    simp only [processPossibilityLine] at hidx
    split at hidx
    · exact h idx hidx
    · cases hidx

theorem constraintScan_bounded (g : Grid) (p : Nat) :
    ∀ (L : List Nat) (st : PossibilityLines × PossibilityLines × PossibilityLines),
      (∀ j ∈ L, j < 81) → plBounded st.1 → plBounded st.2.1 → plBounded st.2.2 →
      plBounded (constraintScan g p L st).1 ∧
        plBounded (constraintScan g p L st).2.1 ∧
        plBounded (constraintScan g p L st).2.2 := by
  intro L
  induction L with
  | nil => intro st _ h1 h2 h3; exact ⟨h1, h2, h3⟩
  | cons i rest ih =>
    intro st hL h1 h2 h3
    obtain ⟨rows, cols, sects⟩ := st
    have hi : i < 81 := hL i (List.mem_cons_self i rest)
    have hrest : ∀ j ∈ rest, j < 81 := fun j hj => hL j (List.mem_cons_of_mem i hj)
    have hprocessed :
        plBounded (processPossibilityLine rows (cellRow i)) ∧
        plBounded (processPossibilityLine cols (cellCol i)) ∧
        plBounded (processPossibilityLine sects (cellSect i)) :=
      ⟨plBounded_process h1 _ (cellRow_lt_9 i hi),
       plBounded_process h2 _ (cellCol_lt_9 i),
       plBounded_process h3 _ (cellSect_lt_9 i hi)⟩
    cases hv : g.cells i with
    | Fixed x =>
      simp only [constraintScan, hv]
      by_cases hp : p == x
      · rw [if_pos hp]
        exact hprocessed
      · rw [if_neg hp]
        by_cases hbrk : plIsInvalid rows && plIsInvalid cols && plIsInvalid sects
        · rw [if_pos hbrk]
          exact ⟨h1, h2, h3⟩
        · rw [if_neg hbrk]
          exact ih (rows, cols, sects) hrest h1 h2 h3
    | Unknown digits =>
      simp only [constraintScan, hv]
      by_cases hc : digits.contains p
      · rw [if_pos hc]
        by_cases hbrk : plIsInvalid (processPossibilityLine rows (cellRow i)) &&
            plIsInvalid (processPossibilityLine cols (cellCol i)) &&
            plIsInvalid (processPossibilityLine sects (cellSect i))
        · rw [if_pos hbrk]
          exact hprocessed
        · rw [if_neg hbrk]
          exact ih _ hrest hprocessed.1 hprocessed.2.1 hprocessed.2.2
      · rw [if_neg hc]
        by_cases hbrk : plIsInvalid rows && plIsInvalid cols && plIsInvalid sects
        · rw [if_pos hbrk]
          exact ⟨h1, h2, h3⟩
        · rw [if_neg hbrk]
          exact ih (rows, cols, sects) hrest h1 h2 h3

theorem removeLine_inert (g : Grid) (tlt : LineType) (tidx : Nat) (d : Nat)
    (ilt : LineType) (iidx : Nat) (htidx : tidx < 9) (hg : allFixed g) :
    removePossibilitiesLine g tlt tidx d ilt iidx = (g, false) := by
  unfold removePossibilitiesLine
  have hmem := line_cells_fixed g tlt tidx htidx hg
  generalize lineCells tlt tidx = L at hmem
  induction L with
  | nil => rfl
  | cons i rest ih =>
    rw [List.foldl_cons]
    have hstep : removeLineStep d ilt iidx (g, false) i = (g, false) := by
      have hv := hmem i (List.mem_cons_self i rest)
      cases hc : g.cells i with
      | Unknown ps => rw [hc] at hv; cases hv
      | Fixed x => simp [removeLineStep, hc]
    rw [hstep]
    exact ih (fun j hj => hmem j (List.mem_cons_of_mem i hj))

theorem applyTracker_inert (g : Grid) (tlt : LineType) (pl : PossibilityLines)
    (poss : Nat) (lt : LineType) (lidx : Nat) (hb : plBounded pl) (hg : allFixed g) :
    applyTracker tlt pl poss lt lidx (g, false) = (g, false) := by
  cases pl with
  | Unique idx =>
    have hidx : idx < 9 := hb idx rfl
    simp only [applyTracker]
    rw [removeLine_inert g tlt idx poss lt lidx hidx hg]
    rfl
  | Invalid => rfl
  | None => rfl

theorem constraintPossStep_inert (g : Grid) (lt : LineType) (lidx : Nat) (poss : Nat)
    (hlidx : lidx < 9) (hg : allFixed g) :
    constraintPossStep lt lidx (g, false) poss = (g, false) := by
  have hL : ∀ j ∈ lineCells lt lidx, j < 81 := lineCells_lt_81 lt lidx hlidx
  have hinit : plBounded (constraintInit lt).1 ∧ plBounded (constraintInit lt).2.1 ∧
      plBounded (constraintInit lt).2.2 := by
    cases lt <;>
      exact ⟨by first | exact plBounded_invalid | exact plBounded_none,
             by first | exact plBounded_invalid | exact plBounded_none,
             by first | exact plBounded_invalid | exact plBounded_none⟩
  obtain ⟨hb1, hb2, hb3⟩ := constraintScan_bounded g poss (lineCells lt lidx)
    (constraintInit lt) hL hinit.1 hinit.2.1 hinit.2.2
  show applyTracker .Section _ poss lt lidx
    (applyTracker .Column _ poss lt lidx (applyTracker .Row _ poss lt lidx (g, false))) =
    (g, false)
  rw [applyTracker_inert g .Row _ poss lt lidx hb1 hg,
    applyTracker_inert g .Column _ poss lt lidx hb2 hg,
    applyTracker_inert g .Section _ poss lt lidx hb3 hg]

theorem searchConstraint_inert (g : Grid) (lt : LineType) (lidx : Nat)
    (hlidx : lidx < 9) (hg : allFixed g) :
    searchUsefulConstraintFn g lt lidx = (g, false) := by
  unfold searchUsefulConstraintFn
  have : ∀ K : List Nat, K.foldl (constraintPossStep lt lidx) (g, false) = (g, false) := by
    intro K
    induction K with
    | nil => rfl
    | cons k rest ih =>
      rw [List.foldl_cons, constraintPossStep_inert g lt lidx k hlidx hg]
      exact ih
  exact this (List.range 9)

theorem clearLineDirty_cells (g : Grid) (lt : LineType) (lidx : Nat) :
    (clearLineDirty g lt lidx).cells = g.cells := by
  cases lt <;> rfl

theorem solveLine_inert (g : Grid) (lt : LineType) (lidx : Nat) (c : SolveController)
    (stats : SolveStatistics) (hlidx : lidx < 9) (hg : allFixed g) :
    solveLine g lt lidx c stats = some (clearLineDirty g lt lidx, stats) := by
  have hg' : allFixed (clearLineDirty g lt lidx) :=
    allFixed_of_cells_eq (clearLineDirty_cells g lt lidx) hg
  have hfix : ∀ j ∈ lineCells lt lidx,
      isUnknown ((clearLineDirty g lt lidx).cells j) = false :=
    line_cells_fixed _ lt lidx hlidx hg'
  simp [solveLine, searchSingle_inert _ _ hfix, searchHiddenSingle_inert _ _ hfix,
    identifyGroups_inert _ _ hfix (lineCells_length lt lidx),
    searchConstraint_inert _ lt lidx hlidx hg']

theorem foldl_passLineStep_AF (g0 : Grid) (c : SolveController) (lt : LineType) :
    ∀ (L : List Nat), (∀ j ∈ L, j < 9) →
    ∀ (g : Grid) (stats : SolveStatistics) (ran : Bool), g.cells = g0.cells → allFixed g0 →
    ∃ g' stats' ran',
      L.foldl (passLineStep c lt) (some (g, stats, ran)) = some (g', stats', ran')
        ∧ g'.cells = g0.cells := by
  intro L
  induction L with
  | nil => intro _ g stats ran hcells _; exact ⟨g, stats, ran, rfl, hcells⟩
  | cons i rest ih =>
    intro hL g stats ran hcells hAF
    rw [List.foldl_cons]
    have hi : i < 9 := hL i (List.mem_cons_self i rest)
    have hgAF : allFixed g := allFixed_of_cells_eq hcells hAF
    by_cases hd : lineDirty g lt i
    · have hstep : passLineStep c lt (some (g, stats, ran)) i =
          some (clearLineDirty g lt i, stats, true) := by
        simp [passLineStep, hd, solveLine_inert g lt i c stats hi hgAF]
      rw [hstep]
      have hcc : (clearLineDirty g lt i).cells = g0.cells := by
        rw [clearLineDirty_cells, hcells]
      exact ih (fun j hj => hL j (List.mem_cons_of_mem i hj)) _ stats true hcc hAF
    · have hstep : passLineStep c lt (some (g, stats, ran)) i = some (g, stats, ran) := by
        simp [passLineStep, hd]
      rw [hstep]
      exact ih (fun j hj => hL j (List.mem_cons_of_mem i hj)) g stats ran hcells hAF

theorem runPass_AF (g : Grid) (c : SolveController) (stats : SolveStatistics)
    (hAF : allFixed g) :
    ∃ g' stats' ran', runPass g c stats = some (g', stats', ran') ∧ g'.cells = g.cells := by
  unfold runPass
  have hr9 : ∀ j ∈ List.range 9, j < 9 := fun j hj => List.mem_range.1 hj
  obtain ⟨g1, s1, r1, h1, hc1⟩ :=
    foldl_passLineStep_AF g c .Row (List.range 9) hr9 g stats false rfl hAF
  rw [h1]
  obtain ⟨g2, s2, r2, h2, hc2⟩ :=
    foldl_passLineStep_AF g c .Column (List.range 9) hr9 g1 s1 r1 hc1 hAF
  rw [h2]
  obtain ⟨g3, s3, r3, h3, hc3⟩ :=
    foldl_passLineStep_AF g c .Section (List.range 9) hr9 g2 s2 r2 hc2 hAF
  exact ⟨g3, s3, r3, h3, hc3⟩

theorem completionScan_AF (g : Grid) (hAF : allFixed g) :
    ∀ (L : List Nat), (∀ j ∈ L, j < 81) → ∀ b : Bool,
      completionScan g L b = if b then .CompleteFound else .ContinueLoop := by
  intro L
  induction L with
  | nil => intro _ b; rfl
  | cons i rest ih =>
    intro hL b
    have hi : isUnknown (g.cells i) = false := hAF i (hL i (List.mem_cons_self i rest))
    cases hv : g.cells i with
    | Unknown ps => rw [hv] at hi; cases hi
    | Fixed x =>
      simp only [completionScan, hv]
      exact ih (fun j hj => hL j (List.mem_cons_of_mem i hj)) b

theorem noGuess_AF (fuel : Nat) (c : SolveController) (g : Grid) (stats : SolveStatistics)
    (hAF : allFixed g) :
    ∃ g' status stats', solveGridNoGuess (fuel + 1) c g stats = some (g', status, stats') ∧
      g'.cells = g.cells := by
  obtain ⟨g1, s1, r1, h1, hc1⟩ := runPass_AF g c stats hAF
  cases r1 with
  | false =>
    have key : solveGridNoGuess (fuel + 1) c g stats = some (g1, .Unfinished, s1) := by
      rw [solveGridNoGuess_succ, h1]
      rfl
    exact ⟨g1, .Unfinished, s1, key, hc1⟩
  | true =>
    have hAF1 : allFixed g1 := allFixed_of_cells_eq hc1 hAF
    have key : solveGridNoGuess (fuel + 1) c g stats =
        match completionScan g1 (List.range 81) true with
        | .InvalidFound => some (g1, .Invalid, s1)
        | .CompleteFound => some (g1, .Complete (some .Unique), s1)
        | .ContinueLoop => solveGridNoGuess fuel c g1 s1 := by
      rw [solveGridNoGuess_succ, h1]
      rfl
    rw [completionScan_AF g1 hAF1 (List.range 81) (fun j hj => List.mem_range.1 hj) true]
      at key
    exact ⟨g1, .Complete (some .Unique), s1, key.trans rfl, hc1⟩

/-- C3 counterexample: running `solve_grid_no_guess` on `c3Grid` returns
`Complete` with row 0 still flagged dirty; running it again on the returned
grid clears that flag, so the second run changes the state (the 27 flags are
part of it) and propagation is not idempotent as claimed. -/
theorem claim3_counterexample :
    ((solveGridNoGuess 3 fullController c3Grid stats0).bind (fun r1 =>
      (solveGridNoGuess 3 fullController r1.1 stats0).map (fun r2 =>
        (r1.2.1, r1.1.rowDirty 0, r2.1.rowDirty 0)))) =
      some (.Complete (some .Unique), true, false) := by decide

/-- C3 (amended): propagation is idempotent on cell values but not on the
dirty flags.  If a run returns `Unfinished` its grid is flag-clean and a
second run returns it bit-for-bit unchanged (and touches no statistics); if a
run returns `Complete` then a second run on its grid succeeds and leaves all
81 cell values identical (only flags can change, as the counterexample
shows). -/
theorem claim3_amended_idempotent_on_cells
    (c : SolveController) (fuel fuel2 : Nat) (g g1 : Grid)
    (stats s1 stats2 : SolveStatistics) :
    (solveGridNoGuess (fuel + 1) c g stats = some (g1, .Unfinished, s1) →
      solveGridNoGuess (fuel2 + 1) c g1 stats2 = some (g1, .Unfinished, stats2)) ∧
    (∀ u, solveGridNoGuess (fuel + 1) c g stats = some (g1, .Complete u, s1) →
      ∃ g2 status2 stats2',
        solveGridNoGuess (fuel2 + 1) c g1 stats2 = some (g2, status2, stats2')
          ∧ g2.cells = g1.cells) := by
  constructor
  · intro h
    exact noGuess_clean fuel2 c g1 stats2
      (noGuess_unfinished_allClean (fuel + 1) c g stats g1 s1 h)
  · intro u h
    have hAF : allFixed g1 := noGuess_complete_allFixed (fuel + 1) c g stats g1 u s1 h
    exact noGuess_AF fuel2 c g1 stats2 hAF

/-- C3 witness: the amended theorem applied to an `Unfinished` run (the
all-`Fixed`, all-clean grid) and to a `Complete` run (`c4Grid`, whose result
grid is `c4After`). -/
theorem claim3_witness :
    solveGridNoGuess 1 fullController allFixedGrid stats0 =
      some (allFixedGrid, .Unfinished, stats0) ∧
    ∃ g2 status2 stats2', solveGridNoGuess 1 fullController c4After stats0 =
      some (g2, status2, stats2') ∧ g2.cells = c4After.cells :=
  ⟨(claim3_amended_idempotent_on_cells fullController 0 0 allFixedGrid
      allFixedGrid stats0 stats0 stats0).1 rfl,
   (claim3_amended_idempotent_on_cells fullController 0 0 c4Grid c4After
      stats0 ⟨1, 0, 0, 0, 0⟩ stats0).2 (some .Unique) rfl⟩

theorem fixedMono_refl (g : Grid) : fixedMono g g := fun _ h => h

theorem fixedMono_trans {g1 g2 g3 : Grid} (h1 : fixedMono g1 g2) (h2 : fixedMono g2 g3) :
    fixedMono g1 g3 := fun j h => h2 j (h1 j h)

theorem fixedMono_of_cells_eq {g g' : Grid} (h : g'.cells = g.cells) : fixedMono g g' :=
  fun j hj => by rw [h]; exact hj

theorem isUnknown_set (g : Grid) (i d j : Nat) :
    isUnknown ((set g i d).cells j) = (!(j == i) && isUnknown (g.cells j)) := by
  rw [set_eq, isUnknown_pp, isUnknown_pp, isUnknown_pp, isUnknown_updFixed]

theorem fixedMono_set (g : Grid) (i d : Nat) : fixedMono g (set g i d) := by
  intro j hj
  rw [isUnknown_set, hj]
  simp

theorem fixedMono_setValue_unknown (g : Grid) (i : Nat) (v : CellValue)
    (hi : isUnknown (g.cells i) = true) : fixedMono g (setValue g i v) := by
  cases v with
  | Fixed d => exact fixedMono_set g i d
  | Unknown ps =>
    intro j hj
    by_cases hji : j = i
    · subst hji; rw [hj] at hi; cases hi
    · show isUnknown ((setValueExact g i (Unknown ps)).cells j) = false
      rw [cells_setValueExact, Function.update_noteq hji]
      exact hj

theorem fixedMono_foldl (step : Grid × Bool → Nat → Grid × Bool)
    (hstep : ∀ p i, fixedMono p.1 (step p i).1) :
    ∀ (L : List Nat) (p : Grid × Bool), fixedMono p.1 (L.foldl step p).1 := by
  intro L
  induction L with
  | nil => intro p; exact fixedMono_refl _
  | cons a rest ih =>
    intro p
    rw [List.foldl_cons]
    exact fixedMono_trans (hstep p a) (ih (step p a))

theorem fixedMono_singleStep (p : Grid × Bool) (i : Nat) : fixedMono p.1 (singleStep p i).1 := by
  cases hv : getValuePossibilities p.1 i with
  | none =>
    simp only [singleStep, hv]
    exact fixedMono_refl _
  | some ps =>
    simp only [singleStep, hv]
    by_cases hl : (ps.length == 1) = true
    · rw [if_pos hl]
      exact fixedMono_set p.1 i (ps.headD 0)
    · rw [if_neg hl]
      exact fixedMono_refl _

theorem fixedMono_searchSingle (g : Grid) (L : List Nat) :
    fixedMono g (searchSinglePossibility g L).1 :=
  fixedMono_foldl singleStep fixedMono_singleStep L (g, false)

theorem fixedMono_hiddenSetStep (counts : List Count) (p : Grid × Bool) (k : Nat) :
    fixedMono p.1 (hiddenSetStep counts p k).1 := by
  unfold hiddenSetStep
  cases counts.getD k .Many with
  | One i => exact fixedMono_set p.1 i (k + 1)
  | None => exact fixedMono_refl _
  | Many => exact fixedMono_refl _

theorem fixedMono_searchHidden (g : Grid) (L : List Nat) :
    fixedMono g (searchHiddenSingle g L).1 :=
  fixedMono_foldl (hiddenSetStep (hiddenCounts g L)) (fixedMono_hiddenSetStep _)
    (List.range 9) (g, false)

theorem fixedMono_removeLineStep (d : Nat) (ilt : LineType) (iidx : Nat)
    (p : Grid × Bool) (i : Nat) : fixedMono p.1 (removeLineStep d ilt iidx p i).1 := by
  cases hv : p.1.cells i with
  | Fixed x =>
    simp only [removeLineStep, hv]
    exact fixedMono_refl _
  | Unknown ps =>
    simp only [removeLineStep, hv]
    cases ilt
    all_goals
      split
      · exact fixedMono_refl _
      · split
        · exact fixedMono_setValue_unknown p.1 i _ (by rw [hv]; rfl)
        · exact fixedMono_refl _

theorem fixedMono_removeLine (g : Grid) (tlt : LineType) (tidx : Nat) (d : Nat)
    (ilt : LineType) (iidx : Nat) :
    fixedMono g (removePossibilitiesLine g tlt tidx d ilt iidx).1 :=
  fixedMono_foldl (removeLineStep d ilt iidx) (fixedMono_removeLineStep d ilt iidx)
    (lineCells tlt tidx) (g, false)

theorem fixedMono_applyTracker (tlt : LineType) (pl : PossibilityLines) (poss : Nat)
    (lt : LineType) (lidx : Nat) (p : Grid × Bool) :
    fixedMono p.1 (applyTracker tlt pl poss lt lidx p).1 := by
  cases pl with
  | Unique idx => exact fixedMono_removeLine p.1 tlt idx poss lt lidx
  | Invalid => exact fixedMono_refl _
  | None => exact fixedMono_refl _

theorem fixedMono_constraintPossStep (lt : LineType) (lidx : Nat) (p : Grid × Bool)
    (poss : Nat) : fixedMono p.1 (constraintPossStep lt lidx p poss).1 := by
  unfold constraintPossStep
  exact fixedMono_trans (fixedMono_applyTracker .Row _ poss lt lidx p)
    (fixedMono_trans (fixedMono_applyTracker .Column _ poss lt lidx _)
      (fixedMono_applyTracker .Section _ poss lt lidx _))

theorem fixedMono_searchConstraint (g : Grid) (lt : LineType) (lidx : Nat) :
    fixedMono g (searchUsefulConstraintFn g lt lidx).1 :=
  fixedMono_foldl (constraintPossStep lt lidx) (fixedMono_constraintPossStep lt lidx)
    (List.range 9) (g, false)

theorem fixedMono_bisectApply (line inPoss outPoss : List Nat) :
    ∀ (fl : List FauxCell) (g g' : Grid) (b : Bool),
      bisectApply g line fl inPoss outPoss = some (g', b) → fixedMono g g' := by
  have hnone : ∀ (fl : List FauxCell),
      fl.foldl (fun (acc : Option (Grid × Bool)) (c : FauxCell) =>
        match acc with
        | none => none
        | some (g, mc) =>
          let realIdx := line.getD c.index 0
          match g.cells realIdx with
          | Fixed _ => none
          | Unknown ps =>
            let toRemove := if c.inGroup then outPoss else inPoss
            let newPs := ps.filter (fun d => !(toRemove.contains d))
            if newPs.length < ps.length then
              let newValue :=
                if newPs.length == 1 then Fixed (newPs.getLastD 0) else Unknown newPs
              some (setValue g realIdx newValue, true)
            else some (g, mc)) none = none := by
    intro fl
    induction fl with
    | nil => rfl
    | cons c rest ih => exact ih
  have main : ∀ (fl : List FauxCell) (p q : Grid × Bool),
      fl.foldl (fun (acc : Option (Grid × Bool)) (c : FauxCell) =>
        match acc with
        | none => none
        | some (g, mc) =>
          let realIdx := line.getD c.index 0
          match g.cells realIdx with
          | Fixed _ => none
          | Unknown ps =>
            let toRemove := if c.inGroup then outPoss else inPoss
            let newPs := ps.filter (fun d => !(toRemove.contains d))
            if newPs.length < ps.length then
              let newValue :=
                if newPs.length == 1 then Fixed (newPs.getLastD 0) else Unknown newPs
              some (setValue g realIdx newValue, true)
            else some (g, mc)) (some p) = some q → fixedMono p.1 q.1 := by
    intro fl
    induction fl with
    | nil =>
      intro p q h
      injection h with h
      rw [← h]
      exact fixedMono_refl _
    | cons c rest ih =>
      intro p q h
      rw [List.foldl_cons] at h
      obtain ⟨g, mc⟩ := p
      cases hv : g.cells (line.getD c.index 0) with
      | Fixed x =>
        simp only [hv] at h
        rw [hnone rest] at h
        cases h
      | Unknown ps =>
        simp only [hv] at h
        by_cases hlen : (ps.filter (fun d => !((if c.inGroup then outPoss else inPoss).contains d))).length < ps.length
        · rw [if_pos hlen] at h
          refine fixedMono_trans ?_ (ih _ q h)
          exact fixedMono_setValue_unknown g _ _ (by rw [hv]; rfl)
        · rw [if_neg hlen] at h
          exact ih _ q h
  intro fl g g' b h
  exact main fl (g, false) (g', b) h

theorem fixedMono_bisect :
    ∀ (fuel : Nat) (g : Grid) (line coi : List Nat) (g' : Grid) (b : Bool),
      bisect fuel g line coi = some (g', b) → fixedMono g g' := by
  intro fuel
  induction fuel with
  | zero => intro g line coi g' b h; cases h
  | succ fuel ih =>
    intro g line coi g' b h
    simp only [bisect] at h
    by_cases h1 : numOutGroup (bisectSetup g line coi) ≤ 2
    · rw [if_pos h1] at h
      injection h with h
      injection h with hg hb
      rw [← hg]
      exact fixedMono_refl _
    · rw [if_neg h1] at h
      by_cases h2 : numOutGroup (bisectLoop (bisectSetup g line coi).length.succ
          (bisectSetup g line coi) 0) > 0
      · rw [if_pos h2] at h
        split at h
        · cases h
        · rename_i ga mc heqApp
          split at h
          · cases h
          · rename_i g2 b2 heqB1
            split at h
            · cases h
            · rename_i g3 b3 heqB2
              injection h with h
              injection h with hg hb
              rw [← hg]
              exact fixedMono_trans (fixedMono_bisectApply _ _ _ _ _ _ _ heqApp)
                (fixedMono_trans (ih _ _ _ _ _ heqB1) (ih _ _ _ _ _ heqB2))
      · rw [if_neg h2] at h
        injection h with h
        injection h with hg hb
        rw [← hg]
        exact fixedMono_refl _

theorem fixedMono_identify (g : Grid) (line : List Nat) (g' : Grid) (b : Bool)
    (h : identifyAndProcessPossibilityGroups g line = some (g', b)) : fixedMono g g' :=
  fixedMono_bisect 10 g line [0, 1, 2, 3, 4, 5, 6, 7, 8] g' b h

theorem fixedMono_iteStage (P : Prop) [Decidable P] (g0 : Grid)
    (x y : Grid × SolveStatistics) (hx : fixedMono g0 x.1) (hy : fixedMono g0 y.1) :
    fixedMono g0 (if P then x else y).1 := by
  by_cases h : P
  · rw [if_pos h]; exact hx
  · rw [if_neg h]; exact hy

theorem solveLine_fixedMono (g : Grid) (lt : LineType) (lidx : Nat) (c : SolveController)
    (stats : SolveStatistics) (g' : Grid) (stats' : SolveStatistics)
    (h : solveLine g lt lidx c stats = some (g', stats')) : fixedMono g g' := by
  have hg0 : fixedMono g (clearLineDirty g lt lidx) :=
    fixedMono_of_cells_eq (clearLineDirty_cells g lt lidx)
  simp only [solveLine] at h
  split at h
  · cases h
  · rename_i gc changed heq
    injection h with h
    injection h with hgeq hseq
    rw [← hgeq]
    have hGB : fixedMono g gc := by
      by_cases h3 : c.findPossibilityGroups = true
      · rw [if_pos h3] at heq
        refine fixedMono_trans ?_ (fixedMono_identify _ _ _ _ heq)
        refine fixedMono_iteStage _ g _ _ ?_ ?_
        · refine fixedMono_trans (fixedMono_iteStage _ g _ _
            (fixedMono_trans hg0 (fixedMono_searchSingle _ _)) hg0) (fixedMono_searchHidden _ _)
        · exact fixedMono_iteStage _ g _ _
            (fixedMono_trans hg0 (fixedMono_searchSingle _ _)) hg0
      · rw [if_neg h3] at heq
        injection heq with heq
        injection heq with hq1 hq2
        rw [← hq1]
        refine fixedMono_iteStage _ g _ _ ?_ ?_
        · refine fixedMono_trans (fixedMono_iteStage _ g _ _
            (fixedMono_trans hg0 (fixedMono_searchSingle _ _)) hg0) (fixedMono_searchHidden _ _)
        · exact fixedMono_iteStage _ g _ _
            (fixedMono_trans hg0 (fixedMono_searchSingle _ _)) hg0
    refine fixedMono_iteStage _ g _ _ ?_ hGB
    exact fixedMono_trans hGB (fixedMono_searchConstraint _ _ _)

theorem foldl_passLineStep_fixedMono (c : SolveController) (lt : LineType) :
    ∀ (L : List Nat) (g : Grid) (stats : SolveStatistics) (ran : Bool)
      (g' : Grid) (stats' : SolveStatistics) (ran' : Bool),
      L.foldl (passLineStep c lt) (some (g, stats, ran)) = some (g', stats', ran') →
      fixedMono g g' := by
  intro L
  induction L with
  | nil =>
    intro g stats ran g' stats' ran' h
    injection h with h
    injection h with h1 h2
    rw [← h1]
    exact fixedMono_refl _
  | cons idx rest ih =>
    intro g stats ran g' stats' ran' h
    rw [List.foldl_cons] at h
    by_cases hd : lineDirty g lt idx
    · have hstep : passLineStep c lt (some (g, stats, ran)) idx =
          match solveLine g lt idx c stats with
          | none => none
          | some (g2, stats2) => some (g2, stats2, true) := by
        simp [passLineStep, hd]
      rw [hstep] at h
      cases hs : solveLine g lt idx c stats with
      | none =>
        rw [hs] at h
        rw [foldl_passLineStep_none] at h
        cases h
      | some p =>
        rw [hs] at h
        refine fixedMono_trans (solveLine_fixedMono g lt idx c stats p.1 p.2 ?_)
          (ih p.1 p.2 true g' stats' ran' h)
        rw [hs]
    · have hstep : passLineStep c lt (some (g, stats, ran)) idx = some (g, stats, ran) := by
        simp [passLineStep, hd]
      rw [hstep] at h
      exact ih g stats ran g' stats' ran' h

theorem runPass_fixedMono (g : Grid) (c : SolveController) (stats : SolveStatistics)
    (g' : Grid) (stats' : SolveStatistics) (ran' : Bool)
    (h : runPass g c stats = some (g', stats', ran')) : fixedMono g g' := by
  unfold runPass at h
  cases h1 : (List.range 9).foldl (passLineStep c .Row) (some (g, stats, false)) with
  | none =>
    rw [h1, foldl_passLineStep_none, foldl_passLineStep_none] at h
    cases h
  | some p1 =>
    rw [h1] at h
    cases h2 : (List.range 9).foldl (passLineStep c .Column) (some (p1.1, p1.2.1, p1.2.2)) with
    | none =>
      rw [h2, foldl_passLineStep_none] at h
      cases h
    | some p2 =>
      rw [h2] at h
      refine fixedMono_trans (foldl_passLineStep_fixedMono c .Row (List.range 9)
          g stats false p1.1 p1.2.1 p1.2.2 h1)
        (fixedMono_trans (foldl_passLineStep_fixedMono c .Column (List.range 9)
          p1.1 p1.2.1 p1.2.2 p2.1 p2.2.1 p2.2.2 h2)
          (foldl_passLineStep_fixedMono c .Section (List.range 9)
            p2.1 p2.2.1 p2.2.2 g' stats' ran' h))

theorem noGuess_fixedMono :
    ∀ (fuel : Nat) (c : SolveController) (g : Grid) (stats : SolveStatistics)
      (g' : Grid) (st : SolveStatus) (stats' : SolveStatistics),
      solveGridNoGuess fuel c g stats = some (g', st, stats') → fixedMono g g' := by
  intro fuel
  induction fuel with
  | zero => intro c g stats g' st stats' h; cases h
  | succ fuel ih =>
    intro c g stats g' st stats' h
    rw [solveGridNoGuess_succ] at h
    cases hp : runPass g c stats with
    | none => rw [hp] at h; cases h
    | some p =>
      rw [hp] at h
      obtain ⟨gp, sp, ran⟩ := p
      have hmono : fixedMono g gp := runPass_fixedMono g c stats gp sp ran hp
      cases ran with
      | false =>
        simp only [Bool.false_eq_true, if_false] at h
        injection h with h
        injection h with h1 h2
        rw [← h1]
        exact hmono
      | true =>
        simp only [if_true] at h
        cases hscan : completionScan gp (List.range 81) true with
        | InvalidFound =>
          rw [hscan] at h
          injection h with h
          injection h with h1 h2
          rw [← h1]
          exact hmono
        | CompleteFound =>
          rw [hscan] at h
          injection h with h
          injection h with h1 h2
          rw [← h1]
          exact hmono
        | ContinueLoop =>
          rw [hscan] at h
          exact fixedMono_trans hmono (ih c gp sp g' st stats' h)

theorem countUnknown_eq_countP (g : Grid) :
    countUnknown g = (List.range 81).countP (fun i => isUnknown (g.cells i)) := by
  rw [countUnknown, List.countP_eq_length_filter]

theorem countUnknown_le_of_pointwise {g g' : Grid}
    (h : ∀ j, isUnknown (g.cells j) = true → isUnknown (g'.cells j) = true) :
    countUnknown g ≤ countUnknown g' := by
  rw [countUnknown_eq_countP, countUnknown_eq_countP]
  exact List.countP_mono_left (fun j _ hj => h j hj)

theorem countUnknown_mono_fixedMono {g g' : Grid} (h : fixedMono g g') :
    countUnknown g' ≤ countUnknown g := by
  refine countUnknown_le_of_pointwise (fun j hj => ?_)
  cases hv : isUnknown (g.cells j) with
  | true => rfl
  | false =>
    rw [h j hv] at hj
    cases hj

theorem countP_le_ne_and (p : Nat → Bool) (i : Nat) :
    ∀ L : List Nat, L.countP p ≤ L.countP (fun j => !(j == i) && p j) + L.count i := by
  intro L
  induction L with
  | nil => simp
  | cons a rest ih =>
    by_cases ha : a = i
    · subst ha
      simp only [List.countP_cons, List.count_cons]
      have h2 : (!(a == a) && p a) = false := by simp
      rw [h2]
      simp only [if_false, Bool.false_eq_true]
      by_cases hp : p a = true
      · simp [hp]
        omega
      · simp [hp]
        omega
    · simp only [List.countP_cons, List.count_cons]
      have hbe : (a == i) = false := by
        simp [Nat.beq_eq_true_eq]
        omega
      have h2 : (!(a == i) && p a) = p a := by rw [hbe]; simp
      rw [h2, hbe]
      simp only [Bool.false_eq_true, if_false]
      by_cases hp : p a = true
      · simp [hp]
        omega
      · simp [hp]
        omega

theorem countUnknown_set_lb (g : Grid) (i d : Nat) :
    countUnknown g ≤ countUnknown (set g i d) + 1 := by
  rw [countUnknown_eq_countP, countUnknown_eq_countP]
  have hpt : ((List.range 81).countP (fun j => isUnknown ((set g i d).cells j))) =
      ((List.range 81).countP (fun j => !(j == i) && isUnknown (g.cells j))) := by
    refine List.countP_congr (fun j _ => ?_)
    rw [isUnknown_set]
  rw [hpt]
  have hcount : (List.range 81).count i ≤ 1 :=
    List.nodup_iff_count_le_one.mp (List.nodup_range 81) i
  have := countP_le_ne_and (fun j => isUnknown (g.cells j)) i (List.range 81)
  omega

theorem exists_unknown_of_countPos (g : Grid) (h : 1 ≤ countUnknown g) :
    ∃ i, i < 81 ∧ isUnknown (g.cells i) = true := by
  have hne : (List.range 81).filter (fun i => isUnknown (g.cells i)) ≠ [] := by
    intro he
    rw [countUnknown, he] at h
    cases h
  obtain ⟨x, hx⟩ := List.exists_mem_of_ne_nil _ hne
  obtain ⟨hx1, hx2⟩ := List.mem_filter.1 hx
  exact ⟨x, List.mem_range.1 hx1, hx2⟩

theorem allFixed_of_countZero (g : Grid) (h : countUnknown g = 0) :
    ∀ i < 81, isUnknown (g.cells i) = false := by
  intro i hi
  cases hv : isUnknown (g.cells i) with
  | false => rfl
  | true =>
    exfalso
    have hmem : i ∈ (List.range 81).filter (fun j => isUnknown (g.cells j)) :=
      List.mem_filter.2 ⟨List.mem_range.2 hi, hv⟩
    rw [countUnknown] at h
    rw [List.length_eq_zero.1 h] at hmem
    cases hmem

theorem unique_unknown_of_count (g : Grid) (c : Nat) (hc : c < 81)
    (hcu : isUnknown (g.cells c) = true) (hcount : countUnknown g ≤ 1) :
    ∀ j < 81, j ≠ c → isUnknown (g.cells j) = false := by
  have hmem : c ∈ (List.range 81).filter (fun j => isUnknown (g.cells j)) :=
    List.mem_filter.2 ⟨List.mem_range.2 hc, hcu⟩
  have hlen1 : ((List.range 81).filter (fun j => isUnknown (g.cells j))).length = 1 := by
    rw [countUnknown] at hcount
    have : 1 ≤ ((List.range 81).filter (fun j => isUnknown (g.cells j))).length :=
      List.length_pos.2 (List.ne_nil_of_mem hmem)
    omega
  obtain ⟨a, ha⟩ := List.length_eq_one.1 hlen1
  rw [ha] at hmem
  have hac : a = c := by
    rcases List.mem_singleton.1 hmem with h
    exact h.symm
  intro j hj hjc
  cases hv : isUnknown (g.cells j) with
  | false => rfl
  | true =>
    exfalso
    have hjm : j ∈ (List.range 81).filter (fun k => isUnknown (g.cells k)) :=
      List.mem_filter.2 ⟨List.mem_range.2 hj, hv⟩
    rw [ha, hac] at hjm
    exact hjc (List.mem_singleton.1 hjm)

theorem findSmallestAux_mem (g : Grid) :
    ∀ (L : List Nat) (best : Option Nat) (size : Nat) (c : Nat),
      findSmallestAux g L best size = some c → best = some c ∨ c ∈ L := by
  intro L
  induction L with
  | nil => intro best size c h; exact Or.inl h
  | cons j rest ih =>
    intro best size c h
    cases hv : g.cells j with
    | Unknown ps =>
      simp only [findSmallestAux, hv] at h
      by_cases hcond : ps.length < size ∧ 0 < ps.length
      · rw [if_pos hcond] at h
        by_cases hsz : ps.length ≤ 2
        · rw [if_pos hsz] at h
          injection h with h
          exact Or.inr (h ▸ List.mem_cons_self j rest)
        · rw [if_neg hsz] at h
          rcases ih (some j) ps.length c h with hl | hr
          · injection hl with hl
            exact Or.inr (hl ▸ List.mem_cons_self j rest)
          · exact Or.inr (List.mem_cons_of_mem j hr)
      · rw [if_neg hcond] at h
        by_cases hsz : size ≤ 2
        · rw [if_pos hsz] at h
          exact Or.inl h
        · rw [if_neg hsz] at h
          rcases ih best size c h with hl | hr
          · exact Or.inl hl
          · exact Or.inr (List.mem_cons_of_mem j hr)
    | Fixed x =>
      simp only [findSmallestAux, hv] at h
      by_cases hsz : size ≤ 2
      · rw [if_pos hsz] at h
        exact Or.inl h
      · rw [if_neg hsz] at h
        rcases ih best size c h with hl | hr
        · exact Or.inl hl
        · exact Or.inr (List.mem_cons_of_mem j hr)

theorem mem_linesOf_lt_81 (i : Nat) (hi : i < 81) : ∀ j ∈ linesOf i, j < 81 := by
  intro j hj
  rcases List.mem_append.1 hj with hj | hj
  · rcases List.mem_append.1 hj with hj | hj
    · exact lineCells_lt_81 .Row (cellRow i) (cellRow_lt_9 i hi) j hj
    · exact lineCells_lt_81 .Column (cellCol i) (cellCol_lt_9 i) j hj
  · exact lineCells_lt_81 .Section (cellSect i) (cellSect_lt_9 i hi) j hj

theorem set_flags_of_no_unknown_peers (g : Grid) (i d : Nat)
    (h : ∀ j ∈ linesOf i, j ≠ i → isUnknown (g.cells j) = false) :
    (∀ r, (set g i d).rowDirty r = g.rowDirty r) ∧
    (∀ r, (set g i d).colDirty r = g.colDirty r) ∧
    (∀ r, (set g i d).sectDirty r = g.sectDirty r) := by
  have hpt : ∀ j ∈ linesOf i, (!(j == i) && isUnknown (g.cells j)) = false := by
    intro j hj
    by_cases hji : j = i
    · subst hji
      simp
    · rw [h j hj hji]
      simp
  have hrow : ∀ j ∈ lineCells .Row (cellRow i), (!(j == i) && isUnknown (g.cells j)) = false :=
    fun j hj => hpt j (List.mem_append.2 (Or.inl (List.mem_append.2 (Or.inl hj))))
  have hcol : ∀ j ∈ lineCells .Column (cellCol i),
      (!(j == i) && isUnknown (g.cells j)) = false :=
    fun j hj => hpt j (List.mem_append.2 (Or.inl (List.mem_append.2 (Or.inr hj))))
  have hsect : ∀ j ∈ lineCells .Section (cellSect i),
      (!(j == i) && isUnknown (g.cells j)) = false :=
    fun j hj => hpt j (List.mem_append.2 (Or.inr hj))
  have hisU : ∀ j, isUnknown ((processPossibilities (processPossibilities (updFixed g i d)
      (lineCells .Row (cellRow i)) d) (lineCells .Column (cellCol i)) d).cells j) =
      (!(j == i) && isUnknown (g.cells j)) := by
    intro j
    rw [isUnknown_pp, isUnknown_pp, isUnknown_updFixed]
  have hisU1 : ∀ j, isUnknown ((processPossibilities (updFixed g i d)
      (lineCells .Row (cellRow i)) d).cells j) = (!(j == i) && isUnknown (g.cells j)) := by
    intro j
    rw [isUnknown_pp, isUnknown_updFixed]
  have hisU0 : ∀ j, isUnknown ((updFixed g i d).cells j) =
      (!(j == i) && isUnknown (g.cells j)) := by
    intro j
    rw [isUnknown_updFixed]
  refine ⟨fun r => ?_, fun r => ?_, fun r => ?_⟩
  · rw [set_eq, rowDirty_pp, rowDirty_pp, rowDirty_pp]
    have e1 : (lineCells .Row (cellRow i)).any
        (fun j => isUnknown ((updFixed g i d).cells j) && (cellRow j == r)) = false := by
      rw [List.any_eq_false]
      intro j hj
      rw [hisU0 j, hrow j hj]
      simp
    have e2 : (lineCells .Column (cellCol i)).any
        (fun j => isUnknown ((processPossibilities (updFixed g i d)
          (lineCells .Row (cellRow i)) d).cells j) && (cellRow j == r)) = false := by
      rw [List.any_eq_false]
      intro j hj
      rw [hisU1 j, hcol j hj]
      simp
    have e3 : (lineCells .Section (cellSect i)).any
        (fun j => isUnknown ((processPossibilities (processPossibilities (updFixed g i d)
          (lineCells .Row (cellRow i)) d) (lineCells .Column (cellCol i)) d).cells j) &&
          (cellRow j == r)) = false := by
      rw [List.any_eq_false]
      intro j hj
      rw [hisU j, hsect j hj]
      simp
    rw [e1, e2, e3]
    rw [Bool.or_false, Bool.or_false, Bool.or_false]
    rfl
  · rw [set_eq, colDirty_pp, colDirty_pp, colDirty_pp]
    have e1 : (lineCells .Row (cellRow i)).any
        (fun j => isUnknown ((updFixed g i d).cells j) && (cellCol j == r)) = false := by
      rw [List.any_eq_false]
      intro j hj
      rw [hisU0 j, hrow j hj]
      simp
    have e2 : (lineCells .Column (cellCol i)).any
        (fun j => isUnknown ((processPossibilities (updFixed g i d)
          (lineCells .Row (cellRow i)) d).cells j) && (cellCol j == r)) = false := by
      rw [List.any_eq_false]
      intro j hj
      rw [hisU1 j, hcol j hj]
      simp
    have e3 : (lineCells .Section (cellSect i)).any
        (fun j => isUnknown ((processPossibilities (processPossibilities (updFixed g i d)
          (lineCells .Row (cellRow i)) d) (lineCells .Column (cellCol i)) d).cells j) &&
          (cellCol j == r)) = false := by
      rw [List.any_eq_false]
      intro j hj
      rw [hisU j, hsect j hj]
      simp
    rw [e1, e2, e3]
    rw [Bool.or_false, Bool.or_false, Bool.or_false]
    rfl
  · rw [set_eq, sectDirty_pp, sectDirty_pp, sectDirty_pp]
    have e1 : (lineCells .Row (cellRow i)).any
        (fun j => isUnknown ((updFixed g i d).cells j) && (cellSect j == r)) = false := by
      rw [List.any_eq_false]
      intro j hj
      rw [hisU0 j, hrow j hj]
      simp
    have e2 : (lineCells .Column (cellCol i)).any
        (fun j => isUnknown ((processPossibilities (updFixed g i d)
          (lineCells .Row (cellRow i)) d).cells j) && (cellSect j == r)) = false := by
      rw [List.any_eq_false]
      intro j hj
      rw [hisU1 j, hcol j hj]
      simp
    have e3 : (lineCells .Section (cellSect i)).any
        (fun j => isUnknown ((processPossibilities (processPossibilities (updFixed g i d)
          (lineCells .Row (cellRow i)) d) (lineCells .Column (cellCol i)) d).cells j) &&
          (cellSect j == r)) = false := by
      rw [List.any_eq_false]
      intro j hj
      rw [hisU j, hsect j hj]
      simp
    rw [e1, e2, e3]
    rw [Bool.or_false, Bool.or_false, Bool.or_false]
    rfl

theorem allClean_set_of_no_unknown_peers (g : Grid) (i d : Nat)
    (h : ∀ j ∈ linesOf i, j ≠ i → isUnknown (g.cells j) = false) (hc : allClean g) :
    allClean (set g i d) := by
  obtain ⟨hr, hcl, hs⟩ := set_flags_of_no_unknown_peers g i d h
  intro k hk
  rw [hr k, hcl k, hs k]
  exact hc k hk

theorem genSolveGrid_succ (fuel : Nat) (g : Grid) :
    genSolveGrid (fuel + 1) g =
      match solveGridNoGuess (fuel + 1) fullController g stats0 with
      | none => none
      | some (g1, st, _) =>
        match mapToGenerateStatus st with
        | .Unfinished =>
          match genSolveGridGuess (genSolveGrid fuel) g1 with
          | some .Unfinished => none
          | r => r
        | s => some s := rfl

/-- On a flag-clean grid whose 81 real cells are all `Fixed`, the generator's
`solve_grid` reports `NoSolution`: the scan loop exits immediately with
`Unfinished` and `find_smallest_cell` finds no guess cell. -/
theorem genSolveGrid_clean_fixed (fuel : Nat) (g : Grid)
    (hclean : allClean g) (hfix : ∀ i < 81, isUnknown (g.cells i) = false) :
    genSolveGrid (fuel + 1) g = some .NoSolution := by
  have hfind : findSmallestCell g = none := by
    refine findSmallestAux_skip g (List.range 81) none usizeMax ?_
    intro i hi ps hps
    exfalso
    have hx := hfix i (List.mem_range.1 hi)
    rw [hps] at hx
    cases hx
  rw [genSolveGrid_succ, noGuess_clean fuel fullController g stats0 hclean]
  show (match genSolveGridGuess (genSolveGrid fuel) g with
        | some .Unfinished => none
        | r => r) = some .NoSolution
  rw [show genSolveGridGuess (genSolveGrid fuel) g = some .NoSolution from by
    simp only [genSolveGridGuess, hfind]]

theorem genGuessLoop_allNoSolution (solve : Grid → Option GenerateStatus) (g : Grid)
    (cellIdx : Nat)
    (hsolve : ∀ d, solve (set g cellIdx d) = none ∨
      solve (set g cellIdx d) = some .NoSolution) :
    ∀ ps : List Nat, genGuessLoop solve g cellIdx ps .Unfinished = none ∨
      genGuessLoop solve g cellIdx ps .Unfinished = some .NoSolution := by
  intro ps
  induction ps with
  | nil => exact Or.inr rfl
  | cons d rest ih =>
    rcases hsolve d with hn | hns
    · left
      simp only [genGuessLoop, hn]
    · simp only [genGuessLoop, hns, genIncrement]
      exact ih

/-- A grid with at most one `Unknown` cell can never be reported
`NotUniqueSolution` by the generator's `solve_grid`: a second solution would
need a second open cell. -/
theorem lowUnknown_not_notUnique (fuel : Nat) (g : Grid) (hcount : countUnknown g ≤ 1) :
    genSolveGrid fuel g ≠ some .NotUniqueSolution := by
  cases fuel with
  | zero =>
    intro hcontra
    rw [show genSolveGrid 0 g = none from rfl] at hcontra
    cases hcontra
  | succ fuel =>
    intro hcontra
    rw [genSolveGrid_succ] at hcontra
    cases hng : solveGridNoGuess (fuel + 1) fullController g stats0 with
    | none => rw [hng] at hcontra; cases hcontra
    | some tr =>
      rw [hng] at hcontra
      obtain ⟨g1, st, s1⟩ := tr
      cases st with
      | Complete u =>
        have h2 : (some GenerateStatus.UniqueSolution : Option GenerateStatus) =
            some .NotUniqueSolution := hcontra
        injection h2 with h2
        cases h2
      | Invalid =>
        have h2 : (some GenerateStatus.NoSolution : Option GenerateStatus) =
            some .NotUniqueSolution := hcontra
        injection h2 with h2
        cases h2
      | Unfinished =>
        have hguess : (match genSolveGridGuess (genSolveGrid fuel) g1 with
            | some .Unfinished => none
            | r => r) = some .NotUniqueSolution := hcontra
        have hclean : allClean g1 :=
          noGuess_unfinished_allClean (fuel + 1) fullController g stats0 g1 s1 hng
        have hmono := noGuess_fixedMono (fuel + 1) fullController g stats0 g1 .Unfinished s1 hng
        have hcount1 : countUnknown g1 ≤ 1 :=
          le_trans (countUnknown_mono_fixedMono hmono) hcount
        cases hfind : findSmallestCell g1 with
        | none =>
          have hgg : genSolveGridGuess (genSolveGrid fuel) g1 = some .NoSolution := by
            simp only [genSolveGridGuess, hfind]
          rw [hgg] at hguess
          have h2 : (some GenerateStatus.NoSolution : Option GenerateStatus) =
              some .NotUniqueSolution := hguess
          injection h2 with h2
          cases h2
        | some cIdx =>
          have hcmem : cIdx ∈ List.range 81 := by
            rcases findSmallestAux_mem g1 (List.range 81) none usizeMax cIdx hfind with h | h
            · cases h
            · exact h
          have hc81 : cIdx < 81 := List.mem_range.1 hcmem
          obtain ⟨ps, hcell, hpsne⟩ := findSmallestAux_sound g1 (List.range 81) none usizeMax
            (fun k hk => by cases hk) cIdx hfind
          have hcu : isUnknown (g1.cells cIdx) = true := by rw [hcell]; rfl
          have honly := unique_unknown_of_count g1 cIdx hc81 hcu hcount1
          have hpeers : ∀ j ∈ linesOf cIdx, j ≠ cIdx → isUnknown (g1.cells j) = false :=
            fun j hj hne => honly j (mem_linesOf_lt_81 cIdx hc81 j hj) hne
          have hfixSet : ∀ d : Nat, ∀ i < 81, isUnknown ((set g1 cIdx d).cells i) = false := by
            intro d i hi
            rw [isUnknown_set]
            by_cases hic : i = cIdx
            · subst hic; simp
            · rw [honly i hi hic]; simp
          have hcleanSet : ∀ d : Nat, allClean (set g1 cIdx d) := fun d =>
            allClean_set_of_no_unknown_peers g1 cIdx d hpeers hclean
          have hsolveSet : ∀ d : Nat, genSolveGrid fuel (set g1 cIdx d) = none ∨
              genSolveGrid fuel (set g1 cIdx d) = some .NoSolution := by
            intro d
            cases fuel with
            | zero => exact Or.inl rfl
            | succ fuel2 =>
              exact Or.inr (genSolveGrid_clean_fixed fuel2 _ (hcleanSet d) (hfixSet d))
          have hgvp : getValuePossibilities g1 cIdx = some ps := by
            simp only [getValuePossibilities, hcell]
          have hgg : genSolveGridGuess (genSolveGrid fuel) g1 =
              genGuessLoop (genSolveGrid fuel) g1 cIdx ps .Unfinished := by
            simp only [genSolveGridGuess, hfind, hgvp]
          rcases genGuessLoop_allNoSolution (genSolveGrid fuel) g1 cIdx hsolveSet ps
            with hn | hns
          · rw [hgg, hn] at hguess
            cases hguess
          · rw [hgg, hns] at hguess
            have h2 : (some GenerateStatus.NoSolution : Option GenerateStatus) =
                some .NotUniqueSolution := hguess
            injection h2 with h2
            cases h2

theorem isUnknown_recalcLine :
    ∀ (line : List Nat) (g : Grid) (j : Nat),
      isUnknown ((recalcLine g line).cells j) = isUnknown (g.cells j) := by
  intro line
  induction line with
  | nil => intro g j; rfl
  | cons k rest ih =>
    intro g j
    cases hv : g.cells k with
    | Fixed x =>
      have hstep : recalcLine g (k :: rest) = recalcLine g rest := by
        unfold recalcLine
        rw [List.foldl_cons]
        simp only [hv]
      rw [hstep, ih g j]
    | Unknown ps =>
      have hstep : recalcLine g (k :: rest) =
          recalcLine (setValueExact g k (Unknown (calculatePossibilities g k))) rest := by
        unfold recalcLine
        rw [List.foldl_cons]
        simp only [hv]
      rw [hstep, ih _ j]
      by_cases hjk : j = k
      · subst hjk
        rw [cells_setValueExact, Function.update_same, hv]
        rfl
      · rw [cells_setValueExact, Function.update_noteq hjk]

theorem isUnknown_deleteValue_ge (g : Grid) (c j : Nat)
    (h : isUnknown (g.cells j) = true) : isUnknown ((deleteValue g c).cells j) = true := by
  show isUnknown ((recalcLine (recalcLine (recalcLine (setValueExact g c (Unknown []))
    (lineCells .Section (cellSect c))) (lineCells .Row (cellRow c)))
    (lineCells .Column (cellCol c))).cells j) = true
  rw [isUnknown_recalcLine, isUnknown_recalcLine, isUnknown_recalcLine]
  by_cases hjc : j = c
  · subst hjc
    rw [cells_setValueExact, Function.update_same]
    rfl
  · rw [cells_setValueExact, Function.update_noteq hjc]
    exact h

theorem countUnknown_deleteValue_ge (g : Grid) (c : Nat) :
    countUnknown g ≤ countUnknown (deleteValue g c) :=
  countUnknown_le_of_pointwise (fun j hj => isUnknown_deleteValue_ge g c j hj)

theorem seedFold_count :
    ∀ (digits : List Nat) (g : Grid) (h : Int) (rng : Rng)
      (g' : Grid) (h' : Int) (rng' : Rng),
      seedFold digits (g, h, rng) = some (g', h', rng') →
      countUnknown g ≤ countUnknown g' + digits.length := by
  intro digits
  induction digits with
  | nil =>
    intro g h rng g' h' rng' hs
    injection hs with hs
    injection hs with h1 h2
    rw [← h1]
    simp
  | cons d rest ih =>
    intro g h rng g' h' rng' hs
    simp only [seedFold] at hs
    cases hc : getRandomEmptyCell g rng with
    | none => rw [hc] at hs; cases hs
    | some pr =>
      rw [hc] at hs
      obtain ⟨c, rng1⟩ := pr
      have h1 := ih (set g c d) (h + 1) rng1 g' h' rng' hs
      have h2 := countUnknown_set_lb g c d
      simp only [List.length_cons]
      omega

theorem seedLoop_props (solve : Grid → Option GenerateStatus) :
    ∀ (sf : Nat) (rng : Rng) (res : Sum (Grid × Int) (Grid × Int × Rng)),
      seedLoop solve sf rng = some res →
      (∀ g hints, res = .inl (g, hints) →
        1 ≤ countUnknown g ∧ solve g = some .UniqueSolution) ∧
      (∀ g hints rng2, res = .inr (g, hints, rng2) →
        solve g = some .NotUniqueSolution) := by
  intro sf
  induction sf with
  | zero => intro rng res h; cases h
  | succ sf ih =>
    intro rng res h
    simp only [seedLoop] at h
    cases hsf : seedFold ((List.range' 1 9).filter
        (fun d => d ≠ 1 + (draw rng 9).1)) (initialGrid, 0, (draw rng 9).2) with
    | none => rw [hsf] at h; cases h
    | some st =>
      rw [hsf] at h
      obtain ⟨g, hints, rng2⟩ := st
      dsimp only at h
      cases hsolve : solve g with
      | none => rw [hsolve] at h; cases h
      | some gs =>
        rw [hsolve] at h
        cases gs with
        | UniqueSolution =>
          injection h with h
          refine ⟨?_, ?_⟩
          · intro g0 hints0 hres
            rw [← h] at hres
            injection hres with hres
            injection hres with hg hh
            constructor
            · rw [← hg]
              have hc := seedFold_count _ initialGrid 0 _ g hints rng2 hsf
              have hlen : ((List.range' 1 9).filter
                  (fun d => d ≠ 1 + (draw rng 9).1)).length ≤ 9 := by
                calc ((List.range' 1 9).filter (fun d => d ≠ 1 + (draw rng 9).1)).length
                    ≤ (List.range' 1 9).length := List.length_filter_le _ _
                  _ = 9 := by simp
              have hinit : countUnknown initialGrid = 81 := by decide
              omega
            · rw [← hg]; exact hsolve
          · intro g0 hints0 rng0 hres
            rw [← h] at hres
            cases hres
        | Unfinished => cases h
        | NoSolution => exact ih rng2 res h
        | NotUniqueSolution =>
          injection h with h
          refine ⟨?_, ?_⟩
          · intro g0 hints0 hres
            rw [← h] at hres
            cases hres
          · intro g0 hints0 rng0 hres
            rw [← h] at hres
            injection hres with hres
            injection hres with hg hrest
            rw [← hg]
            exact hsolve

theorem phaseATry_inl (solve : Grid → Option GenerateStatus) (g : Grid) (cellIdx : Nat) :
    ∀ (L : List Nat) (gc : Grid), phaseATry solve g cellIdx L = some (.inl gc) →
      (∃ d, gc = set g cellIdx d) ∧ solve gc = some .UniqueSolution := by
  intro L
  induction L with
  | nil => intro gc h; cases h
  | cons d rest ih =>
    intro gc h
    simp only [phaseATry] at h
    cases hs : solve (set g cellIdx d) with
    | none => rw [hs] at h; cases h
    | some st =>
      rw [hs] at h
      cases st with
      | UniqueSolution =>
        injection h with h
        injection h with h
        rw [h] at hs
        exact ⟨⟨d, h.symm⟩, hs⟩
      | Unfinished => cases h
      | NoSolution => exact ih gc h
      | NotUniqueSolution =>
        injection h with h
        cases h

theorem phaseATry_inr (solve : Grid → Option GenerateStatus) (g : Grid) (cellIdx : Nat) :
    ∀ (L : List Nat) (gc : Grid), phaseATry solve g cellIdx L = some (.inr gc) →
      (∃ d, gc = set g cellIdx d) ∧ solve gc = some .NotUniqueSolution := by
  intro L
  induction L with
  | nil => intro gc h; cases h
  | cons d rest ih =>
    intro gc h
    simp only [phaseATry] at h
    cases hs : solve (set g cellIdx d) with
    | none => rw [hs] at h; cases h
    | some st =>
      rw [hs] at h
      cases st with
      | UniqueSolution =>
        injection h with h
        cases h
      | Unfinished => cases h
      | NoSolution => exact ih gc h
      | NotUniqueSolution =>
        injection h with h
        injection h with h
        rw [h] at hs
        exact ⟨⟨d, h.symm⟩, hs⟩

theorem outerLoop_props (solve : Grid → Option GenerateStatus)
    (hLow : ∀ g, countUnknown g ≤ 1 → solve g ≠ some .NotUniqueSolution) :
    ∀ (f : Nat) (g : Grid) (hints : Int) (rng : Rng)
      (g2 : Grid) (h2 : Int) (rng2 : Rng),
      solve g = some .NotUniqueSolution →
      outerLoop solve f g hints rng = some (g2, h2, rng2) →
      1 ≤ countUnknown g2 ∧ solve g2 = some .UniqueSolution := by
  intro f
  induction f with
  | zero => intro g hints rng g2 h2 rng2 _ h; cases h
  | succ f ih =>
    intro g hints rng g2 h2 rng2 hsolve h
    simp only [outerLoop] at h
    cases hc : getRandomEmptyCell g rng with
    | none => rw [hc] at h; cases h
    | some pr =>
      rw [hc] at h
      obtain ⟨cellIdx, rng1⟩ := pr
      dsimp only at h
      cases hp : getValuePossibilities g cellIdx with
      | none => rw [hp] at h; cases h
      | some ps =>
        rw [hp] at h
        dsimp only at h
        cases ht : phaseATry solve g cellIdx (shuffle ps rng1).1 with
        | none => rw [ht] at h; cases h
        | some sr =>
          rw [ht] at h
          cases sr with
          | inl gc =>
            injection h with h
            injection h with hg hrest
            obtain ⟨⟨d, hd⟩, hu⟩ := phaseATry_inl solve g cellIdx _ gc ht
            have hcg : 2 ≤ countUnknown g := by
              by_contra hlt
              exact hLow g (by omega) hsolve
            have hlb := countUnknown_set_lb g cellIdx d
            refine ⟨?_, by rw [← hg]; exact hu⟩
            rw [← hg, hd]
            omega
          | inr gc =>
            obtain ⟨⟨d, hd⟩, hnu⟩ := phaseATry_inr solve g cellIdx _ gc ht
            exact ih gc (hints + 1) (shuffle ps rng1).2 g2 h2 rng2 hnu h

theorem phaseBFold_props (solve : Grid → Option GenerateStatus) :
    ∀ (L : List Nat) (g : Grid) (hints : Int) (g3 : Grid) (h3 : Int),
      phaseBFold solve L g hints = some (g3, h3) →
      solve g = some .UniqueSolution →
      countUnknown g ≤ countUnknown g3 ∧ solve g3 = some .UniqueSolution := by
  intro L
  induction L with
  | nil =>
    intro g hints g3 h3 h hu
    injection h with h
    injection h with hg hh
    rw [← hg]
    exact ⟨le_refl _, hu⟩
  | cons c rest ih =>
    intro g hints g3 h3 h hu
    simp only [phaseBFold] at h
    cases hs : solve (deleteValue g c) with
    | none => rw [hs] at h; cases h
    | some st =>
      rw [hs] at h
      cases st with
      | UniqueSolution =>
        obtain ⟨h1, h2⟩ := ih (deleteValue g c) (hints - 1) g3 h3 h hs
        exact ⟨le_trans (countUnknown_deleteValue_ge g c) h1, h2⟩
      | Unfinished => cases h
      | NoSolution => cases h
      | NotUniqueSolution => exact ih g hints g3 h3 h hu

/-- C1: for every random stream and every fuel assignment, a puzzle returned
by `generate_grid` contains at least one `Unknown` cell, and re-running the
generator's full solver (every technique, uniqueness determined by the
guessing search) on it yields `UniqueSolution` — the status
`map_to_generate_status` gives a `Complete` outcome.  The snapshot's
`generate_grid` takes no `SolveController`, so the claim's "regardless of the
profile used during generation" quantification has nothing to vary over. -/
theorem claim1_generated_puzzle_open_and_unique (sfuel ofuel gfuel : Nat) (rng : Rng) :
    match generateGrid sfuel ofuel gfuel rng with
    | none => True
    | some (g, _) =>
      (∃ i, i < 81 ∧ isUnknown (g.cells i) = true) ∧
        genSolveGrid gfuel g = some .UniqueSolution := by
  cases hseed : seedLoop (genSolveGrid gfuel) sfuel rng with
  | none =>
    simp only [generateGrid, hseed]
  | some res =>
    obtain ⟨props1, props2⟩ := seedLoop_props (genSolveGrid gfuel) sfuel rng res hseed
    cases res with
    | inl pr =>
      obtain ⟨g, hints⟩ := pr
      obtain ⟨hcount, hsolve⟩ := props1 g hints rfl
      simp only [generateGrid, hseed]
      exact ⟨exists_unknown_of_countPos g hcount, hsolve⟩
    | inr pr =>
      obtain ⟨g, hints, rng2⟩ := pr
      have hnu := props2 g hints rng2 rfl
      simp only [generateGrid, hseed]
      cases houter : outerLoop (genSolveGrid gfuel) ofuel g hints rng2 with
      | none => trivial
      | some pr2 =>
        obtain ⟨g2, h2, rng3⟩ := pr2
        dsimp only
        obtain ⟨hc2, hu2⟩ := outerLoop_props (genSolveGrid gfuel)
          (fun gg hgg => lowUnknown_not_notUnique gfuel gg hgg) ofuel g hints rng2
          g2 h2 rng3 hnu houter
        cases hb : phaseBFold (genSolveGrid gfuel)
            (shuffle (nonEmptyCells g2) rng3).1 g2 h2 with
        | none => trivial
        | some pr3 =>
          obtain ⟨g3, h3⟩ := pr3
          dsimp only
          obtain ⟨hc3, hu3⟩ := phaseBFold_props (genSolveGrid gfuel) _ g2 h2 g3 h3 hb hu2
          exact ⟨exists_unknown_of_countPos g3 (le_trans hc2 hc3), hu3⟩

end SudokuSolver
